import Mathlib

/-!
Verification of the work-item queue adapters (SQLite, Redis, DocumentDB
backends) against their natural-language specification.

The definitions below are a shallow embedding of the Python source:

* `src/sqlite_adapter.py`  → namespace `Sqlite`
* `src/redis_adapter.py`   → namespace `Redis`
* `src/docdb_adapter.py`   → namespace `Docdb`

Machine-level details that cannot affect the verified claims are modelled as
follows: timestamps are integers (`Int`, minutes); UUID generation is
externalized (fresh ids are parameters, freshness is a hypothesis);
key TTLs / expiry (`expire`, `expires_at`) are not modelled since no claim
involves real-time expiry; retry decorators (`with_retry`) are identity on
the success/error behaviour modelled here (they only re-run transient
connection failures, which the pure model does not produce).
-/

set_option maxHeartbeats 1000000
set_option maxRecDepth 8000

namespace WorkQ

/-- JSON values, the payload type (`JSONType` in the source).  Numbers are
modelled as integers; serialisation round-trips (`json.dumps`/`json.loads`)
are the identity on this model. -/
inductive Json where
  | null
  | bool (b : Bool)
  | num (n : Int)
  | str (s : String)
  | arr (xs : List Json)
  | obj (fields : List (String × Json))

/-- Python truthiness of a JSON value: `None`, `False`, `0`, `""`, `[]` and
`{}` are falsy, everything else truthy.  Used by the SQLite adapter's
`payload or {}` expression. -/
def Json.isTruthy : Json → Bool
  | .null => false
  | .bool b => b
  | .num n => n != 0
  | .str s => s != ""
  | .arr xs => !xs.isEmpty
  | .obj fs => !fs.isEmpty

/-- Lifecycle states persisted by the backends (`ProcessingState` in each
adapter module): PENDING, RESERVED, COMPLETED (= `State.DONE.value`),
FAILED. -/
inductive PState where
  | pending
  | reserved
  | completed
  | failed
deriving DecidableEq, Repr

/-- The `state` argument of `release_input`.  The robocorp `State` enum has
members `DONE` (value "COMPLETED") and `FAILED`; `other` models any non-member
value a dynamically-typed caller could pass, which the guard
`state not in (State.DONE, State.FAILED)` rejects. -/
inductive StateArg where
  | DONE
  | FAILED
  | other (s : String)
deriving DecidableEq, Repr

/-- The string `.value` of a `StateArg` (robocorp `State.DONE.value` is
"COMPLETED"). -/
def StateArg.value : StateArg → String
  | .DONE => "COMPLETED"
  | .FAILED => "FAILED"
  | .other s => s

/-- The `exception` dict argument of `release_input` with its three optional
keys.  A Python value that is falsy (`None` or the empty dict `{}`) is
modelled as `none`; `some d` models a non-empty dict, on which `.get` of a
missing key yields `Option.none`. -/
structure ExcDict where
  etype : Option String
  ecode : Option String
  emsg : Option String
deriving DecidableEq, Repr

/-- Python falsiness of an optional string: `not x` is true for `None` and
`""`. -/
def strFalsy : Option String → Bool
  | none => true
  | some s => s == ""

/-- Python exception classes raised by the adapters (kinds only; messages are
not modelled).  `nameError` is the interpreter's `NameError` for an unbound
name; `adapterError` is the package's `AdapterError`. -/
inductive PyErr where
  | emptyQueue
  | valueError
  | fileExistsError
  | fileNotFoundError
  | nameError
  | adapterError
deriving DecidableEq, Repr

/-- Whether an `Except` result is an error. -/
def isErr {α : Type} : Except PyErr α → Bool
  | .error _ => true
  | .ok _ => false

/-- The successfully returned values of a list of results. -/
def oksOf {α : Type} (rs : List (Except PyErr α)) : List α :=
  rs.filterMap fun r => match r with
    | .ok a => some a
    | .error _ => none

end WorkQ

namespace Sqlite

open WorkQ

/-- A row of the `work_items` table (schema v4 of `sqlite_adapter.py`). -/
structure Row where
  id : String
  queue_name : String
  parent_id : Option String
  payload : Json
  state : PState
  created_at : Int
  exception_type : Option String
  exception_code : Option String
  exception_message : Option String
  reserved_at : Option Int
  released_at : Option Int

/-- A row of the `work_item_files` table: primary key
`(work_item_id, filename)`, unique `filepath`. -/
structure FileRow where
  work_item_id : String
  filename : String
  filepath : String
deriving DecidableEq, Repr

/-- The SQLite adapter's persistent state: both tables (rows in insertion
order) and the filesystem used for attachment blobs (path ↦ bytes). -/
structure St where
  items : List Row
  fileRows : List FileRow
  fs : List (String × List Nat)

/-- The `WHERE queue_name = ? AND state = 'PENDING'` filter of the
reservation query. -/
def pendingIn (q : String) (r : Row) : Bool :=
  r.queue_name == q && r.state == .pending

/-- The minimum-`created_at` accumulator of the reservation query's
`ORDER BY created_at ASC LIMIT 1`. -/
def minStep (acc : Option Row) (w : Row) : Option Row :=
  match acc with
  | none => some w
  | some b => if w.created_at < b.created_at then some w else some b

/-- The inner query of `reserve_input`:
`SELECT id FROM work_items WHERE queue_name = ? AND state = 'PENDING'
ORDER BY created_at ASC LIMIT 1`.  Ties on `created_at` are unspecified by
SQL; the model keeps the first row in table order among the minimal ones. -/
def oldestPending (items : List Row) (q : String) : Option Row :=
  (items.filter (pendingIn q)).foldl minStep none

/-- The `SET state = 'RESERVED', reserved_at = CURRENT_TIMESTAMP WHERE id = ?`
update applied to one row. -/
def reserveStamp (idv : String) (now : Int) (r : Row) : Row :=
  if r.id == idv then { r with state := .reserved, reserved_at := some now }
  else r

/-- `SQLiteAdapter.reserve_input`: atomically update the selected row to
`state = RESERVED, reserved_at = CURRENT_TIMESTAMP` and return its id; raise
`EmptyQueue` when no row matches. -/
def reserveInput (s : St) (q : String) (now : Int) :
    Except PyErr String × St :=
  match oldestPending s.items q with
  | none => (.error .emptyQueue, s)
  | some w =>
    (.ok w.id, { s with items := s.items.map (reserveStamp w.id now) })

/-- The terminal `ProcessingState` written by `release_input` for a valid
`State` argument. -/
def terminalOf (st : StateArg) : PState :=
  match st with
  | .DONE => .completed
  | _ => .failed

/-- `SQLiteAdapter.release_input`: validates the state argument and the
exception message, then runs
`UPDATE work_items SET state, released_at, exception_* WHERE id = ?`.
An unknown id matches no row and is not an error. -/
def releaseInput (s : St) (item_id : String) (st : StateArg)
    (exception : Option ExcDict) (now : Int) : Except PyErr Unit × St :=
  match st with
  | .other _ => (.error .valueError, s)
  | _ =>
    let exception_type := exception.bind (·.etype)
    let exception_code := exception.bind (·.ecode)
    let exception_message := exception.bind (·.emsg)
    if st == .FAILED && strFalsy exception_message then
      (.error .valueError, s)
    else
      (.ok (),
       { s with
          items := s.items.map fun r =>
            if r.id == item_id then
              { r with
                  state := terminalOf st
                  released_at := some now
                  exception_type := exception_type
                  exception_code := exception_code
                  exception_message := exception_message }
            else r })

/-- `SQLiteAdapter.create_output`: stores `json.dumps(payload or {})` in a new
PENDING row of the queue `{queue_name}_output`.  The fresh UUID is the
`item_id` parameter. -/
def createOutput (s : St) (q item_id : String) (parent_id : Option String)
    (payload : Option Json) (now : Int) : Except PyErr String × St :=
  let payload_stored : Json :=
    match payload with
    | some p => if p.isTruthy then p else .obj []
    | none => .obj []
  (.ok item_id,
   { s with
      items := s.items ++
        [{ id := item_id
           queue_name := q ++ "_output"
           parent_id := parent_id
           payload := payload_stored
           state := .pending
           created_at := now
           exception_type := none
           exception_code := none
           exception_message := none
           reserved_at := none
           released_at := none }] })

/-- `SQLiteAdapter.load_payload`: `SELECT payload FROM work_items WHERE id = ?`
then `json.loads`; raises `ValueError` when the item is unknown. -/
def loadPayload (s : St) (item_id : String) : Except PyErr Json × St :=
  match s.items.find? (fun r => r.id == item_id) with
  | none => (.error .valueError, s)
  | some r => (.ok r.payload, s)

/-- Modelled from the spec: seeding an input item.  `SQLiteAdapter` in the
source has no `seed_input` method (the tests use one from a module that is
not under `src/`); per the spec's adapter contract, `seed_input` inserts a
new item into the input queue `Q` in state PENDING with `created_at = now`
and the optional payload (default `{}`). -/
def seedInput (s : St) (q item_id : String) (payload : Option Json)
    (now : Int) : Except PyErr String × St :=
  (.ok item_id,
   { s with
      items := s.items ++
        [{ id := item_id
           queue_name := q
           parent_id := none
           payload := payload.getD (.obj [])
           state := .pending
           created_at := now
           exception_type := none
           exception_code := none
           exception_message := none
           reserved_at := none
           released_at := none }] })

/-- The orphan condition of `recover_orphaned_work_items`:
`state = 'RESERVED' AND datetime(reserved_at, '+T minutes') < datetime('now')`
(a NULL `reserved_at` makes the comparison NULL, hence not selected). -/
def orphaned (timeout now : Int) (r : Row) : Bool :=
  r.state == .reserved &&
    (match r.reserved_at with
     | some t => t + timeout < now
     | none => false)

/-- `SQLiteAdapter.recover_orphaned_work_items`:
`UPDATE work_items SET state='PENDING', reserved_at=NULL WHERE ... RETURNING id`.
Returns the recovered ids. -/
def recover (s : St) (timeout now : Int) :
    Except PyErr (List String) × St :=
  (.ok ((s.items.filter (orphaned timeout now)).map (·.id)),
   { s with
      items := s.items.map fun r =>
        if orphaned timeout now r then
          { r with state := .pending, reserved_at := none }
        else r })

/-- `SQLiteAdapter.add_file`: writes the blob to
`{files_dir}/{item_id}/{name}` after an existence check, then inserts the
`work_item_files` record; on an `IntegrityError` (duplicate key or duplicate
filepath) the just-written file is unlinked and `ValueError` is raised.
Note the source performs no filename or size validation. -/
def addFile (s : St) (files_dir item_id name : String)
    (content : List Nat) : Except PyErr Unit × St :=
  let filepath := files_dir ++ "/" ++ item_id ++ "/" ++ name
  if (s.fs.find? (fun p => p.1 == filepath)).isSome then
    (.error .valueError, s)
  else
    let fs1 := s.fs ++ [(filepath, content)]
    if s.fileRows.any (fun fr =>
        (fr.work_item_id == item_id && fr.filename == name) ||
          fr.filepath == filepath) then
      (.error .valueError,
       { s with fs := fs1.filter (fun p => p.1 != filepath) })
    else
      (.ok (),
       { s with
          fs := fs1
          fileRows := s.fileRows ++ [⟨item_id, name, filepath⟩] })

/-- Repeated `reserve_input` calls (the timestamp argument is fixed; it does
not influence selection). -/
def reserveN (s : St) (q : String) (now : Int) :
    Nat → List (Except PyErr String) × St
  | 0 => ([], s)
  | n + 1 =>
    let (r, s1) := reserveInput s q now
    let (rs, s2) := reserveN s1 q now n
    (r :: rs, s2)

end Sqlite

namespace Redis

open WorkQ

/-- The standard base64 alphabet. -/
def b64alphabet : List Char :=
  "ABCDEFGHIJKLMNOPQRSTUVWXYZabcdefghijklmnopqrstuvwxyz0123456789+/".data

/-- Character of the base64 alphabet at a 6-bit index. -/
def b64char (n : Nat) : Char := b64alphabet.getD n 'A'

/-- Base64 encoding of a byte sequence (`base64.b64encode` in the source),
with `=` padding. -/
def b64encode : List Nat → List Char
  | [] => []
  | [a] => [b64char (a / 4), b64char (a % 4 * 16), '=', '=']
  | [a, b] => [b64char (a / 4), b64char (a % 4 * 16 + b / 16),
               b64char (b % 16 * 4), '=']
  | a :: b :: c :: rest =>
    b64char (a / 4) :: b64char (a % 4 * 16 + b / 16) ::
      b64char (b % 16 * 4 + c / 64) :: b64char (c % 64) :: b64encode rest

/-- The `{q}:payload:{id}` hash: fields `payload` (JSON text), `queue_name`,
`state`.  Each field is optional because `HSET` can create the hash with any
subset of fields. -/
structure PayloadHash where
  payload : Option Json
  queue_name : Option String
  state : Option String

/-- The `{q}:timestamps:{id}` hash.  An absent hash behaves like one with all
fields absent. -/
structure Times where
  created_at : Option Int
  reserved_at : Option Int
  released_at : Option Int

/-- A value of the `{q}:files:{id}` hash: either inline base64 text or a
`file://` filesystem reference.  (The two are distinguishable in the source
because base64 text never contains `:`.) -/
inductive FileVal where
  | inline (b64 : String)
  | fileRef (path : String)

/-- The `{q}:exception:{id}` hash written on a FAILED release. -/
structure ExcStored where
  etype : String
  ecode : String
  emsg : String
deriving DecidableEq, Repr

/-- The Redis adapter's state: one component per key family of the source's
key layout `{queue}:{suffix}[:{id}]`, each indexed by the queue namespace
(and item id where applicable), plus the filesystem for large files. -/
structure St where
  pending : String → List String
  processing : String → List String
  doneSet : String → List String
  failedSet : String → List String
  payloadHash : String → String → Option PayloadHash
  timesHash : String → String → Times
  filesHash : String → String → List (String × FileVal)
  excHash : String → String → Option ExcStored
  stateKey : String → String → Option String
  parentKey : String → String → Option String
  originQueue : String → String → Option String
  fs : String → Option (List Nat)

/-- `HSET payload-hash state <v>`: creates the hash when absent. -/
def hsetState (h : Option PayloadHash) (v : String) : Option PayloadHash :=
  match h with
  | none => some ⟨none, none, some v⟩
  | some h => some { h with state := some v }

/-- Point update of a queue-indexed component. -/
def upd1 {α : Type} (f : String → α) (q : String) (v : α) : String → α :=
  fun k => if k = q then v else f k

/-- Point update of a (queue, id)-indexed component. -/
def upd2 {α : Type} (f : String → String → α) (q id : String) (v : α) :
    String → String → α :=
  fun k j => if k = q ∧ j = id then v else f k j

/-- `RedisAdapter.reserve_input`: `RPOPLPUSH {q}:pending {q}:processing`
(pop from the tail, push onto the head); `EmptyQueue` when the pending list
is empty; then `HSET` of `reserved_at` and of the payload-hash `state`
field. -/
def reserveInput (s : St) (q : String) (now : Int) :
    Except PyErr String × St :=
  match (s.pending q).getLast? with
  | none => (.error .emptyQueue, s)
  | some item_id =>
    let s1 := { s with
      pending := upd1 s.pending q (s.pending q).dropLast
      processing := upd1 s.processing q (item_id :: s.processing q) }
    let s2 := { s1 with
      timesHash := upd2 s1.timesHash q item_id
        { s1.timesHash q item_id with reserved_at := some now } }
    let s3 := { s2 with
      payloadHash := upd2 s2.payloadHash q item_id
        (hsetState (s2.payloadHash q item_id) "RESERVED") }
    (.ok item_id, s3)

/-- `SADD`: add to a set (modelled as a duplicate-free list). -/
def sadd (xs : List String) (x : String) : List String :=
  if x ∈ xs then xs else x :: xs

/-- `RedisAdapter.release_input`: validates the arguments, then
`LREM {q}:processing 0 id`, `SADD` into `{q}:done` / `{q}:failed`, writes the
exception hash on failure, `released_at`, the terminal `{q}:state:{id}` key
and the payload-hash `state` field. -/
def releaseInput (s : St) (q item_id : String) (st : StateArg)
    (exception : Option ExcDict) (now : Int) : Except PyErr Unit × St :=
  match st with
  | .other _ => (.error .valueError, s)
  | _ =>
    if st == .FAILED && exception.isNone then
      (.error .valueError, s)
    else
      let lifecycle := if st == .DONE then "COMPLETED" else "FAILED"
      let s1 := { s with
        processing := upd1 s.processing q
          ((s.processing q).filter (· ≠ item_id)) }
      let s2 :=
        if st == .DONE then
          { s1 with doneSet := upd1 s1.doneSet q (sadd (s1.doneSet q) item_id) }
        else
          let s1a := { s1 with
            failedSet := upd1 s1.failedSet q (sadd (s1.failedSet q) item_id) }
          match exception with
          | some e =>
            { s1a with
              excHash := upd2 s1a.excHash q item_id
                (some ⟨(e.etype).getD "UnknownException",
                       (e.ecode).getD "", (e.emsg).getD ""⟩) }
          | none => s1a
      let s3 := { s2 with
        timesHash := upd2 s2.timesHash q item_id
          { s2.timesHash q item_id with released_at := some now } }
      let s4 := { s3 with
        stateKey := upd2 s3.stateKey q item_id (some st.value)
        payloadHash := upd2 s3.payloadHash q item_id
          (hsetState (s3.payloadHash q item_id) lifecycle) }
      (.ok (), s4)

/-- `RedisAdapter.create_output`: writes the payload hash, parent key,
`created_at` and origin-queue hint, then `LPUSH`es the fresh id onto the
output queue's pending list.  Note the origin-queue key lives in the input
queue's namespace (`self._key("origin_queue", item_id)`). -/
def createOutput (s : St) (q item_id parent_id : String)
    (payload : Option Json) (now : Int) : Except PyErr String × St :=
  let qo := q ++ "_output"
  let payload_data := payload.getD (.obj [])
  let s1 := { s with
    payloadHash := upd2 s.payloadHash qo item_id
      (some ⟨some payload_data, some qo, some "PENDING"⟩) }
  let s2 :=
    if parent_id ≠ "" then
      { s1 with parentKey := upd2 s1.parentKey qo item_id (some parent_id) }
    else s1
  let s3 := { s2 with
    timesHash := upd2 s2.timesHash qo item_id
      { s2.timesHash qo item_id with created_at := some now } }
  let s4 := { s3 with
    pending := upd1 s3.pending qo (item_id :: s3.pending qo) }
  let s5 := { s4 with
    originQueue := upd2 s4.originQueue q item_id (some qo) }
  (.ok item_id, s5)

/-- `RedisAdapter.seed_input` without the optional `files` loop (no claim
seeds with attachments): payload hash, optional parent key, `created_at`,
then `LPUSH` onto the input queue's pending list. -/
def seedInput (s : St) (q item_id parent_id : String)
    (payload : Option Json) (now : Int) : Except PyErr String × St :=
  let payload_data := payload.getD (.obj [])
  let s1 := { s with
    payloadHash := upd2 s.payloadHash q item_id
      (some ⟨some payload_data, some q, some "PENDING"⟩) }
  let s2 :=
    if parent_id ≠ "" then
      { s1 with parentKey := upd2 s1.parentKey q item_id (some parent_id) }
    else s1
  let s3 := { s2 with
    timesHash := upd2 s2.timesHash q item_id
      { s2.timesHash q item_id with created_at := some now } }
  let s4 := { s3 with
    pending := upd1 s3.pending q (item_id :: s3.pending q) }
  (.ok item_id, s4)

/-- `RedisAdapter._resolve_item_queue`: the item's queue namespace is the
input queue if its payload hash has a `payload` field there, else the queue
named by the origin-queue hint (when its payload hash matches), else the
output queue; otherwise `ValueError`. -/
def resolveItemQueue (s : St) (q item_id : String) : Except PyErr String :=
  if ((s.payloadHash q item_id).bind (·.payload)).isSome then
    .ok q
  else
    let fallback : Except PyErr String :=
      if ((s.payloadHash (q ++ "_output") item_id).bind (·.payload)).isSome then
        .ok (q ++ "_output")
      else
        .error .valueError
    match s.originQueue q item_id with
    | some oq =>
      if ((s.payloadHash oq item_id).bind (·.payload)).isSome then
        .ok oq
      else fallback
    | none => fallback

/-- `RedisAdapter.load_payload`: resolve the queue, `HGET` the `payload`
field, `ValueError` when absent. -/
def loadPayload (s : St) (q item_id : String) : Except PyErr Json × St :=
  match resolveItemQueue s q item_id with
  | .error e => (.error e, s)
  | .ok qn =>
    match (s.payloadHash qn item_id).bind (·.payload) with
    | none => (.error .valueError, s)
    | some p => (.ok p, s)

/-- `INLINE_FILE_THRESHOLD = 1_000_000` (1 MB). -/
def INLINE_FILE_THRESHOLD : Nat := 1000000

/-- `MAX_FILE_SIZE = 104_857_600` (100 MB per FR-007). -/
def MAX_FILE_SIZE : Nat := 104857600

/-- `RedisAdapter.add_file`: filename validation (`/`, `\`, length > 255),
size validation (> `MAX_FILE_SIZE`), queue resolution, duplicate check
(`FileExistsError`), then hybrid storage: content strictly larger than
`INLINE_FILE_THRESHOLD` goes to `{files_dir}/{id}/{name}` with a `file://`
reference in the hash, otherwise inline base64 in the hash. -/
def addFile (s : St) (files_dir q item_id name : String)
    (content : List Nat) : Except PyErr Unit × St :=
  if name.data.contains '/' || name.data.contains '\\' then
    (.error .valueError, s)
  else if name.length > 255 then
    (.error .valueError, s)
  else if content.length > MAX_FILE_SIZE then
    (.error .valueError, s)
  else
    match resolveItemQueue s q item_id with
    | .error e => (.error e, s)
    | .ok qn =>
      if ((s.filesHash qn item_id).find? (fun p => p.1 == name)).isSome then
        (.error .fileExistsError, s)
      else if content.length > INLINE_FILE_THRESHOLD then
        let filepath := files_dir ++ "/" ++ item_id ++ "/" ++ name
        (.ok (),
         { s with
            fs := fun p => if p = filepath then some content else s.fs p
            filesHash := upd2 s.filesHash qn item_id
              ((s.filesHash qn item_id) ++
                [(name, .fileRef ("file://" ++ filepath))]) })
      else
        (.ok (),
         { s with
            filesHash := upd2 s.filesHash qn item_id
              ((s.filesHash qn item_id) ++
                [(name, .inline (String.mk (b64encode content)))]) })

/-- The per-item body of the orphan-recovery loop of
`RedisAdapter.recover_orphaned_work_items`, for an item found stale:
`LREM {q}:processing 0 id`, `LPUSH {q}:pending id`, `HDEL` of `reserved_at`
and `HSET` of the payload-hash state to PENDING. -/
def recoverOne (s : St) (q item_id : String) : St :=
  let s1 := { s with
    processing := upd1 s.processing q
      ((s.processing q).filter (· ≠ item_id))
    pending := upd1 s.pending q (item_id :: s.pending q) }
  { s1 with
    timesHash := upd2 s1.timesHash q item_id
      { s1.timesHash q item_id with reserved_at := none }
    payloadHash := upd2 s1.payloadHash q item_id
      (hsetState (s1.payloadHash q item_id) "PENDING") }

/-- One pass of the orphan-recovery loop of
`RedisAdapter.recover_orphaned_work_items` over a snapshot of the processing
list: items whose live `reserved_at` is older than the cutoff are recovered
by `recoverOne`. -/
def recoverLoop (q : String) (cutoff : Int) :
    List String → St → List String × St
  | [], s => ([], s)
  | item_id :: rest, s =>
    match (s.timesHash q item_id).reserved_at with
    | some r =>
      if r < cutoff then
        let (ids, s3) := recoverLoop q cutoff rest (recoverOne s q item_id)
        (item_id :: ids, s3)
      else
        recoverLoop q cutoff rest s
    | none => recoverLoop q cutoff rest s

/-- `RedisAdapter.recover_orphaned_work_items`: `cutoff = now - timeout`, then
the loop above over `LRANGE {q}:processing 0 -1`. -/
def recover (s : St) (q : String) (timeout now : Int) :
    Except PyErr (List String) × St :=
  let (ids, s1) := recoverLoop q (now - timeout) (s.processing q) s
  (.ok ids, s1)

/-- Repeated `reserve_input` calls. -/
def reserveN (s : St) (q : String) (now : Int) :
    Nat → List (Except PyErr String) × St
  | 0 => ([], s)
  | n + 1 =>
    let (r, s1) := reserveInput s q now
    let (rs, s2) := reserveN s1 q now n
    (r :: rs, s2)

end Redis

namespace Docdb

open WorkQ

/-- A value of a document's `files` map: inline base64 text for small files,
or a GridFS reference (`{"gridfs_id": ...}`) for large ones.  The GridFS id
is modelled as the upload's filename `{item_id}/{name}`. -/
inductive DocFile where
  | inline (b64 : String)
  | gridfsRef (gid : String)

/-- A work-item document of a `{queue}_work_items` collection
(`docdb_adapter.py`).  The `expires_at` TTL field is not modelled (no claim
involves expiry). -/
structure Doc where
  item_id : String
  queue_name : String
  parent_id : Option String
  state : String
  payload : Json
  files : List (String × DocFile)
  exception : Option Redis.ExcStored
  created_at : Int
  reserved_at : Option Int
  released_at : Option Int
  callid : Option String

/-- The DocumentDB adapter's state: one document collection per queue name
(documents in insertion order) plus the GridFS blob store. -/
structure St where
  docs : String → List Doc
  gridfs : List (String × List Nat)

/-- `DocumentDBAdapter.reserve_input`.  The source (line 422) passes
`return_document=pymongo.ReturnDocument.AFTER`, but the module only imports
names *from* `pymongo` and never binds `pymongo` itself, so evaluating the
keyword argument raises `NameError` before any database call; the retry
wrapper does not catch `NameError`, so every call fails with no state
change. -/
def reserveInput (s : St) (q : String) (now : Int) :
    Except PyErr String × St :=
  (.error .nameError, s)

/-- What `find_one_and_update` of `reserve_input` would select had the
`pymongo` name been bound: the first document matching
`{queue_name: q, state: "PENDING"}` under ascending `timestamps.created_at`. -/
def oldestPendingDoc (docs : List Doc) (q : String) : Option Doc :=
  (docs.filter fun d => d.queue_name == q && d.state == "PENDING").foldl
    (fun acc d =>
      match acc with
      | none => some d
      | some b => if d.created_at < b.created_at then some d else some b)
    none

/-- `update_one`: update the first document satisfying the filter. -/
def updateFirst (docs : List Doc) (p : Doc → Bool) (f : Doc → Doc) :
    List Doc :=
  match docs with
  | [] => []
  | d :: rest =>
    if p d then f d :: rest else d :: updateFirst rest p f

/-- Point update of the collection map. -/
def updColl (f : String → List Doc) (k : String) (v : List Doc) :
    String → List Doc :=
  fun j => if j = k then v else f j

/-- `DocumentDBAdapter.release_input`: validates the arguments, then
`update_one({"item_id": id}, {$set: state, timestamps.released_at
[, exception]})` on the *input* queue collection; a missing item only logs a
warning. -/
def releaseInput (s : St) (q item_id : String) (st : StateArg)
    (exception : Option ExcDict) (now : Int) : Except PyErr Unit × St :=
  match st with
  | .other _ => (.error .valueError, s)
  | _ =>
    if st == .FAILED && exception.isNone then
      (.error .valueError, s)
    else
      let newState := if st == .DONE then "COMPLETED" else "FAILED"
      (.ok (),
       { s with
          docs := updColl s.docs q
            (updateFirst (s.docs q) (fun d => d.item_id == item_id)
              (fun d =>
                { d with
                    state := newState
                    released_at := some now
                    exception :=
                      match exception with
                      | some e =>
                        some ⟨(e.etype).getD "UnknownException",
                              (e.ecode).getD "", (e.emsg).getD ""⟩
                      | none => d.exception })) })

/-- `DocumentDBAdapter.create_output`: inserts a fresh PENDING document
(payload `{}` only when the argument is `None`) into the
`{queue}_output_work_items` collection. -/
def createOutput (s : St) (q item_id parent_id : String)
    (payload : Option Json) (now : Int) : Except PyErr String × St :=
  let qo := q ++ "_output"
  let payload_data := payload.getD (.obj [])
  (.ok item_id,
   { s with
      docs := updColl s.docs qo
        (s.docs qo ++
          [{ item_id := item_id
             queue_name := qo
             parent_id := some parent_id
             state := "PENDING"
             payload := payload_data
             files := []
             exception := none
             created_at := now
             reserved_at := none
             released_at := none
             callid := none }]) })

/-- `DocumentDBAdapter._resolve_item_queue`: input collection first, then the
output collection, else `ValueError`. -/
def resolveItemQueue (s : St) (q item_id : String) : Except PyErr String :=
  if (s.docs q).any (fun d => d.item_id == item_id) then
    .ok q
  else if (s.docs (q ++ "_output")).any (fun d => d.item_id == item_id) then
    .ok (q ++ "_output")
  else
    .error .valueError

/-- `DocumentDBAdapter.load_payload`: resolve the queue, `find_one` by
`item_id` and return its payload. -/
def loadPayload (s : St) (q item_id : String) : Except PyErr Json × St :=
  match resolveItemQueue s q item_id with
  | .error e => (.error e, s)
  | .ok qn =>
    match (s.docs qn).find? (fun d => d.item_id == item_id) with
    | none => (.error .valueError, s)
    | some d => (.ok d.payload, s)

/-- `DocumentDBAdapter.add_file` with the default
`file_threshold = GRIDFS_THRESHOLD = 1_000_000`: same filename/size
validation as the Redis adapter, duplicate check, then GridFS for content
strictly above the threshold and inline base64 otherwise. -/
def addFile (s : St) (q item_id name : String) (file_threshold : Nat)
    (content : List Nat) : Except PyErr Unit × St :=
  if name.data.contains '/' || name.data.contains '\\' then
    (.error .valueError, s)
  else if name.length > 255 then
    (.error .valueError, s)
  else if content.length > Redis.MAX_FILE_SIZE then
    (.error .valueError, s)
  else
    match resolveItemQueue s q item_id with
    | .error e => (.error e, s)
    | .ok qn =>
      let existing :=
        ((s.docs qn).find? (fun d => d.item_id == item_id)).map (·.files)
      if (existing.getD []).any (fun p => p.1 == name) then
        (.error .fileExistsError, s)
      else
        let gid := item_id ++ "/" ++ name
        let file_data : DocFile :=
          if content.length > file_threshold then .gridfsRef gid
          else .inline (String.mk (Redis.b64encode content))
        let s1 :=
          if content.length > file_threshold then
            { s with gridfs := s.gridfs ++ [(gid, content)] }
          else s
        (.ok (),
         { s1 with
            docs := updColl s1.docs qn
              (updateFirst (s1.docs qn) (fun d => d.item_id == item_id)
                (fun d => { d with files := d.files ++ [(name, file_data)] })) })

/-- `DocumentDBAdapter.seed_input` without the optional `files` loop (which
just calls `add_file` per file; no claim seeds DocumentDB with attachments):
inserts a fresh PENDING document into the input queue's collection, with
`parent_id or None`, the `callid` field only when `callid` is truthy, and no
`reserved_at`/`released_at` timestamps.  `insert_one` raises
`DuplicateKeyError` on the collection's unique sparse `callid` index when a
document with the same callid already exists, which the source converts to
`AdapterError`. -/
def seedInput (s : St) (q item_id parent_id : String) (payload : Option Json)
    (callid : Option String) (now : Int) : Except PyErr String × St :=
  let payload_data := payload.getD (.obj [])
  let docCallid := if strFalsy callid then none else callid
  let doc : Doc :=
    { item_id := item_id
      queue_name := q
      parent_id := if parent_id ≠ "" then some parent_id else none
      state := "PENDING"
      payload := payload_data
      files := []
      exception := none
      created_at := now
      reserved_at := none
      released_at := none
      callid := docCallid }
  match docCallid with
  | some c =>
    if (s.docs q).any (fun d => d.callid == some c) then
      (.error .adapterError, s)
    else
      (.ok item_id, { s with docs := updColl s.docs q (s.docs q ++ [doc]) })
  | none =>
    (.ok item_id, { s with docs := updColl s.docs q (s.docs q ++ [doc]) })

/-- The orphan filter of `DocumentDBAdapter.recover_orphaned_work_items`:
`{state: "RESERVED", "timestamps.reserved_at": {$lt: cutoff}}` (a document
with no `reserved_at` field does not match `$lt`). -/
def orphanedDoc (cutoff : Int) (d : Doc) : Bool :=
  d.state == "RESERVED" &&
    (match d.reserved_at with
     | some r => r < cutoff
     | none => false)

/-- The per-orphan loop of `DocumentDBAdapter.recover_orphaned_work_items`:
for each item id from the cursor snapshot, `update_one({"item_id": id},
{$set: {state: PENDING}, $unset: {timestamps.reserved_at}})` against the live
collection, recording the id when `modified_count > 0`.  The collection has a
unique index on `item_id`, so `update_one` modifies exactly the snapshot's
document whenever one with that id is present. -/
def recoverGo (q : String) : List String → St → List String × St
  | [], s => ([], s)
  | id :: rest, s =>
    let s1 : St :=
      { s with
        docs := updColl s.docs q
          (updateFirst (s.docs q) (fun d => d.item_id == id)
            (fun d => { d with state := "PENDING", reserved_at := none })) }
    let modified := (s.docs q).any (fun d => d.item_id == id)
    let (ids, s2) := recoverGo q rest s1
    (if modified then id :: ids else ids, s2)

/-- `DocumentDBAdapter.recover_orphaned_work_items`: `cutoff = now - timeout`
(minutes modelled as plain integers), a `find` snapshot of the orphaned
documents of the queue's collection, then the update loop above. -/
def recover (s : St) (q : String) (timeout now : Int) :
    Except PyErr (List String) × St :=
  let cutoff := now - timeout
  let orphans := ((s.docs q).filter (orphanedDoc cutoff)).map (·.item_id)
  let (ids, s1) := recoverGo q orphans s
  (.ok ids, s1)

/-- The DocumentDB state with no documents and an empty blob store. -/
def emptySt : St := ⟨fun _ => [], []⟩

end Docdb

namespace Sqlite

/-- Seeding several items in order (ids paired with their strictly increasing
`created_at` values). -/
def seedMany (s : St) (q : String) : List (String × Int) → St
  | [] => s
  | (id, t) :: rest => seedMany (seedInput s q id none t).snd q rest

/-- The SQLite state with empty tables and filesystem. -/
def emptySt : St := ⟨[], [], []⟩

end Sqlite

namespace Redis

/-- The Redis state with every key absent. -/
def emptySt : St :=
  { pending := fun _ => []
    processing := fun _ => []
    doneSet := fun _ => []
    failedSet := fun _ => []
    payloadHash := fun _ _ => none
    timesHash := fun _ _ => ⟨none, none, none⟩
    filesHash := fun _ _ => []
    excHash := fun _ _ => none
    stateKey := fun _ _ => none
    parentKey := fun _ _ => none
    originQueue := fun _ _ => none
    fs := fun _ => none }

/-- Seeding several items in order through `seed_input` (all at one
timestamp; Redis FIFO order comes from the list, not the timestamp). -/
def seedAll (s : St) (q : String) (now : Int) : List String → St
  | [] => s
  | id :: rest => seedAll (seedInput s q id "" none now).snd q now rest

end Redis

namespace Sqlite

open WorkQ

/-- Reachability of a SQLite adapter state from the empty database by the
modelled operations (any arguments, any interleaving). -/
inductive Reach : St → Prop
  | init : Reach emptySt
  | seed (s : St) (q id : String) (p : Option Json) (now : Int) :
      Reach s → Reach (seedInput s q id p now).snd
  | create (s : St) (q id : String) (pid : Option String) (p : Option Json)
      (now : Int) : Reach s → Reach (createOutput s q id pid p now).snd
  | reserve (s : St) (q : String) (now : Int) :
      Reach s → Reach (reserveInput s q now).snd
  | release (s : St) (id : String) (st : StateArg) (e : Option ExcDict)
      (now : Int) : Reach s → Reach (releaseInput s id st e now).snd
  | recov (s : St) (timeout now : Int) :
      Reach s → Reach (recover s timeout now).snd
  | addf (s : St) (fd id n : String) (c : List Nat) :
      Reach s → Reach (addFile s fd id n c).snd

end Sqlite

namespace Redis

open WorkQ

/-- Reachability of a Redis adapter state from an empty keyspace by the
modelled operations (any arguments, any interleaving).  `seed_input` and
`create_output` generate the item id with `uuid.uuid4()`, so the id is fresh;
the constructors record the consequence used here, that a fresh id has no
leftover `reserved_at` timestamp in the target namespace. -/
inductive Reach : St → Prop
  | init : Reach emptySt
  | seed (s : St) (q id parent : String) (p : Option Json) (now : Int) :
      Reach s → (s.timesHash q id).reserved_at = none →
      Reach (seedInput s q id parent p now).snd
  | create (s : St) (q id parent : String) (p : Option Json) (now : Int) :
      Reach s → (s.timesHash (q ++ "_output") id).reserved_at = none →
      Reach (createOutput s q id parent p now).snd
  | reserve (s : St) (q : String) (now : Int) :
      Reach s → Reach (reserveInput s q now).snd
  | release (s : St) (q id : String) (st : StateArg) (e : Option ExcDict)
      (now : Int) : Reach s → Reach (releaseInput s q id st e now).snd
  | recov (s : St) (q : String) (timeout now : Int) :
      Reach s → Reach (recover s q timeout now).snd
  | addf (s : St) (fd q id n : String) (c : List Nat) :
      Reach s → Reach (addFile s fd q id n c).snd

end Redis

namespace Docdb

open WorkQ

/-- Reachability of a DocumentDB adapter state from an empty database by the
modelled operations (any arguments, any interleaving). -/
inductive Reach : St → Prop
  | init : Reach emptySt
  | seed (s : St) (q id parent : String) (p : Option Json)
      (callid : Option String) (now : Int) :
      Reach s → Reach (seedInput s q id parent p callid now).snd
  | create (s : St) (q id parent : String) (p : Option Json) (now : Int) :
      Reach s → Reach (createOutput s q id parent p now).snd
  | reserve (s : St) (q : String) (now : Int) :
      Reach s → Reach (reserveInput s q now).snd
  | release (s : St) (q id : String) (st : StateArg) (e : Option ExcDict)
      (now : Int) : Reach s → Reach (releaseInput s q id st e now).snd
  | recov (s : St) (q : String) (timeout now : Int) :
      Reach s → Reach (recover s q timeout now).snd
  | addf (s : St) (q id n : String) (th : Nat) (c : List Nat) :
      Reach s → Reach (addFile s q id n th c).snd

end Docdb

namespace WorkQ

/-- A queue name is never equal to its derived output queue name
`{queue_name}_output`. -/
theorem queue_ne_output (q : String) : q ≠ q ++ "_output" := by
  intro h
  have hd : q.data = q.data ++ "_output".data := by
    have h2 := congrArg String.data h
    simpa [String.data_append] using h2
  have h3 := congrArg List.length hd
  simp at h3

end WorkQ

namespace Sqlite

open WorkQ

/-- C10.  In the embedded-SQL backend, a failed `add_file` never leaves a
blob on disk without a `work_item_files` record: on any error (pre-existing
file, or a duplicate metadata insert that triggers the `IntegrityError`
cleanup) the filesystem and the metadata table are left exactly as they
were. -/
theorem c10_addFile_error_leaves_no_orphan_blob
    (s : St) (fd id name : String) (c : List Nat)
    (h : isErr (addFile s fd id name c).fst = true) :
    (addFile s fd id name c).snd.fs = s.fs ∧
    (addFile s fd id name c).snd.fileRows = s.fileRows := by
  simp only [addFile] at h ⊢
  split_ifs at h ⊢ with h1 h2
  · exact ⟨rfl, rfl⟩
  · refine ⟨?_, rfl⟩
    have hnone : s.fs.find? (fun x => x.1 == fd ++ "/" ++ id ++ "/" ++ name) = none := by
      cases hf : s.fs.find? (fun x => x.1 == fd ++ "/" ++ id ++ "/" ++ name) with
      | none => rfl
      | some v => simp [hf] at h1
    rw [List.filter_append]
    have hself : s.fs.filter (fun x => x.1 != fd ++ "/" ++ id ++ "/" ++ name) = s.fs := by
      rw [List.filter_eq_self]
      intro a ha
      have := List.find?_eq_none.mp hnone a ha
      simpa using this
    simp [hself]
  · simp [isErr] at h

/-- C10 witness: a duplicate metadata row makes `add_file` fail, and the
filesystem and table are unchanged afterwards. -/
theorem c10_addFile_error_leaves_no_orphan_blob_spot :
    isErr (addFile ⟨[], [⟨"it", "f", "d/it/f"⟩], []⟩ "d" "it" "f" [0]).fst = true ∧
    (addFile ⟨[], [⟨"it", "f", "d/it/f"⟩], []⟩ "d" "it" "f" [0]).snd.fs = [] ∧
    (addFile ⟨[], [⟨"it", "f", "d/it/f"⟩], []⟩ "d" "it" "f" [0]).snd.fileRows =
      [⟨"it", "f", "d/it/f"⟩] := by
  refine ⟨by decide, ?_⟩
  have h := c10_addFile_error_leaves_no_orphan_blob
    ⟨[], [⟨"it", "f", "d/it/f"⟩], []⟩ "d" "it" "f" [0] (by decide)
  exact h

end Sqlite

namespace Redis

open WorkQ

end Redis

namespace Docdb

open WorkQ

end Docdb

namespace Claims

open WorkQ

end Claims


namespace Redis

open WorkQ

/-- Storage split of the KV `add_file`: for a valid, fresh attachment on a
resolvable item, the content is stored inline (base64, no filesystem write)
when the byte length is at most `INLINE_FILE_THRESHOLD = 1_000_000`, and on
the filesystem with a `file://` reference when strictly larger. -/
theorem addFile_storage_split (s : St) (fd q id name : String)
    (c : List Nat) (qn : String) (hres : resolveItemQueue s q id = .ok qn)
    (h1 : '/' ∉ name.data) (h2 : '\\' ∉ name.data)
    (h3 : ¬ 255 < name.length) (h4 : ¬ MAX_FILE_SIZE < c.length)
    (h5 : ((s.filesHash qn id).find? (fun p => p.1 == name)).isSome = false) :
    (c.length ≤ INLINE_FILE_THRESHOLD →
      (addFile s fd q id name c).fst = .ok () ∧
      (addFile s fd q id name c).snd.filesHash qn id =
        s.filesHash qn id ++
          [(name, .inline (String.mk (b64encode c)))] ∧
      (addFile s fd q id name c).snd.fs = s.fs) ∧
    (INLINE_FILE_THRESHOLD < c.length →
      (addFile s fd q id name c).fst = .ok () ∧
      (addFile s fd q id name c).snd.fs (fd ++ "/" ++ id ++ "/" ++ name) =
        some c ∧
      (addFile s fd q id name c).snd.filesHash qn id =
        s.filesHash qn id ++
          [(name, .fileRef ("file://" ++ (fd ++ "/" ++ id ++ "/" ++ name)))]) := by
  have hb1 : name.data.contains '/' = false := by simpa using h1
  have hb2 : name.data.contains '\\' = false := by simpa using h2
  constructor
  · intro hle
    have hnot : ¬ INLINE_FILE_THRESHOLD < c.length := not_lt.mpr hle
    simp only [addFile, hb1, hb2, Bool.or_self, Bool.false_eq_true, if_false,
      gt_iff_lt, h3, h4, hres, h5, hnot]
    refine ⟨by simp, ?_, by simp⟩
    simp [upd2]
  · intro hgt
    simp only [addFile, hb1, hb2, Bool.or_self, Bool.false_eq_true, if_false,
      gt_iff_lt, h3, h4, hres, h5, hgt]
    refine ⟨by simp, by simp, ?_⟩
    simp [upd2]

end Redis

namespace Claims

open WorkQ

/-- C8 counterexample: a file of exactly 1,000,000 bytes (1 MB) is stored
*inline* by the KV backend (`len(content) > INLINE_FILE_THRESHOLD` is false)
and nothing is written to the filesystem, so the claim's "inline exactly when
strictly less than 1 MB" fails at the boundary. -/
theorem c8_cex_exact_1mb_stored_inline :
    (List.replicate 1000000 (0 : Nat)).length = Redis.INLINE_FILE_THRESHOLD ∧
    (Redis.addFile (Redis.seedInput Redis.emptySt "q" "it" "" none 0).snd
        "d" "q" "it" "f.bin" (List.replicate 1000000 0)).fst = .ok () ∧
    (Redis.addFile (Redis.seedInput Redis.emptySt "q" "it" "" none 0).snd
        "d" "q" "it" "f.bin" (List.replicate 1000000 0)).snd.filesHash "q" "it" =
      [("f.bin",
        .inline (String.mk (Redis.b64encode (List.replicate 1000000 0))))] ∧
    (Redis.addFile (Redis.seedInput Redis.emptySt "q" "it" "" none 0).snd
        "d" "q" "it" "f.bin" (List.replicate 1000000 0)).snd.fs =
      (Redis.seedInput Redis.emptySt "q" "it" "" none 0).snd.fs := by
  have h := (Redis.addFile_storage_split
      (Redis.seedInput Redis.emptySt "q" "it" "" none 0).snd
      "d" "q" "it" "f.bin" (List.replicate 1000000 0) "q"
      (by rfl) (by decide) (by decide) (by decide)
      (by rw [List.length_replicate]; decide) (by rfl)).1
      (by rw [List.length_replicate]; decide)
  refine ⟨by rw [List.length_replicate]; rfl, h.1, ?_, h.2.2⟩
  have hfh : (Redis.seedInput Redis.emptySt "q" "it" "" none 0).snd.filesHash
      "q" "it" = [] := rfl
  rw [h.2.1, hfh, List.nil_append]

/-- C8 (amended): the KV backend stores `add_file` content inline (base64 in
the files hash, no filesystem write) exactly when the byte length is at most
1,000,000 bytes; strictly larger content is written to
`{files_dir}/{id}/{name}` and a `file://` reference is stored instead. -/
theorem c8_redis_hybrid_storage_threshold :
    ∀ (s : Redis.St) (fd q id name : String) (c : List Nat) (qn : String),
      Redis.resolveItemQueue s q id = .ok qn →
      '/' ∉ name.data → '\\' ∉ name.data → ¬ 255 < name.length →
      ¬ Redis.MAX_FILE_SIZE < c.length →
      ((s.filesHash qn id).find? (fun p => p.1 == name)).isSome = false →
      (c.length ≤ Redis.INLINE_FILE_THRESHOLD →
        (Redis.addFile s fd q id name c).fst = .ok () ∧
        (Redis.addFile s fd q id name c).snd.filesHash qn id =
          s.filesHash qn id ++
            [(name, .inline (String.mk (Redis.b64encode c)))] ∧
        (Redis.addFile s fd q id name c).snd.fs = s.fs) ∧
      (Redis.INLINE_FILE_THRESHOLD < c.length →
        (Redis.addFile s fd q id name c).fst = .ok () ∧
        (Redis.addFile s fd q id name c).snd.fs
            (fd ++ "/" ++ id ++ "/" ++ name) = some c ∧
        (Redis.addFile s fd q id name c).snd.filesHash qn id =
          s.filesHash qn id ++
            [(name, .fileRef ("file://" ++ (fd ++ "/" ++ id ++ "/" ++ name)))]) :=
  fun s fd q id name c qn hres h1 h2 h3 h4 h5 =>
    Redis.addFile_storage_split s fd q id name c qn hres h1 h2 h3 h4 h5

/-- C8 witness: a 3-byte file on a concrete KV state is stored inline. -/
theorem c8_redis_hybrid_storage_threshold_spot :
    (Redis.addFile (Redis.seedInput Redis.emptySt "q" "it" "" none 0).snd
        "d" "q" "it" "f.bin" [1, 2, 3]).fst = .ok () ∧
    (Redis.addFile (Redis.seedInput Redis.emptySt "q" "it" "" none 0).snd
        "d" "q" "it" "f.bin" [1, 2, 3]).snd.filesHash "q" "it" =
      (Redis.seedInput Redis.emptySt "q" "it" "" none 0).snd.filesHash "q" "it"
        ++ [("f.bin", .inline (String.mk (Redis.b64encode [1, 2, 3])))] := by
  have h := (c8_redis_hybrid_storage_threshold
      (Redis.seedInput Redis.emptySt "q" "it" "" none 0).snd
      "d" "q" "it" "f.bin" [1, 2, 3] "q"
      (by rfl) (by decide) (by decide) (by decide) (by decide) (by rfl)).1
      (by decide)
  exact ⟨h.1, h.2.1⟩

end Claims

namespace Sqlite

open WorkQ

/-- The payload stored by the embedded-SQL `create_output` and read back by
`load_payload`: `json.dumps(payload or {})`, i.e. the payload if truthy and
`{}` otherwise. -/
theorem sqliteCreateOutput_load (s : St) (q id : String) (pid : Option String)
    (payload : Option Json) (now : Int)
    (hfresh : ∀ r ∈ s.items, r.id ≠ id) :
    (loadPayload (createOutput s q id pid payload now).snd id).fst =
      .ok (match payload with
           | some p => if p.isTruthy then p else .obj []
           | none => .obj []) := by
  have hnone : s.items.find? (fun r => r.id == id) = none := by
    rw [List.find?_eq_none]
    intro r hr
    simpa using hfresh r hr
  simp [createOutput, loadPayload, List.find?_append, hnone]

end Sqlite

namespace Redis

open WorkQ

/-- The payload stored by the KV `create_output` and read back by
`load_payload`: exactly the given payload (`{}` only when absent), found via
the origin-queue hint. -/
theorem redisCreateOutput_load (s : St) (q id pid : String)
    (payload : Option Json) (now : Int)
    (hfresh : (s.payloadHash q id).bind (·.payload) = none) :
    (loadPayload (createOutput s q id pid payload now).snd q id).fst =
      .ok (payload.getD (.obj [])) := by
  have hne : q ≠ q ++ "_output" := queue_ne_output q
  by_cases hp : pid = "" <;>
    simp [createOutput, loadPayload, resolveItemQueue, upd2, upd1, hne,
      hfresh, hp]

end Redis

namespace Docdb

open WorkQ

/-- The payload stored by the document-store `create_output` and read back by
`load_payload`: exactly the given payload (`{}` only when absent). -/
theorem docdbCreateOutput_load (s : St) (q id pid : String)
    (payload : Option Json) (now : Int)
    (hfresh1 : ∀ d ∈ s.docs q, d.item_id ≠ id)
    (hfresh2 : ∀ d ∈ s.docs (q ++ "_output"), d.item_id ≠ id) :
    (loadPayload (createOutput s q id pid payload now).snd q id).fst =
      .ok (payload.getD (.obj [])) := by
  have hne : q ≠ q ++ "_output" := queue_ne_output q
  have hany1 : (s.docs q).any (fun d => d.item_id == id) = false := by
    rw [List.any_eq_false]
    intro d hd
    simpa using hfresh1 d hd
  have hany2 : (s.docs (q ++ "_output")).any (fun d => d.item_id == id) = false := by
    rw [List.any_eq_false]
    intro d hd
    simpa using hfresh2 d hd
  have hnone2 : (s.docs (q ++ "_output")).find? (fun d => d.item_id == id) = none := by
    rw [List.find?_eq_none]
    intro d hd
    simpa using hfresh2 d hd
  simp [createOutput, loadPayload, resolveItemQueue, updColl, hne, hany1,
    hany2, hnone2, List.find?_append, List.any_append]

end Docdb

namespace Claims

open WorkQ

/-- C5 counterexample: in the embedded-SQL backend,
`create_output(parent, [])` stores `{}` (Python `payload or {}` collapses the
falsy list), so `load_payload` returns `{}`, not `[]`. -/
theorem c5_cex_sqlite_falsy_payload_collapsed :
    (Sqlite.loadPayload
        (Sqlite.createOutput Sqlite.emptySt "q" "out1" none
          (some (.arr [])) 0).snd "out1").fst = .ok (.obj []) ∧
    Json.obj [] ≠ Json.arr [] :=
  ⟨rfl, fun h => Json.noConfusion h⟩

/-- C5 (amended): `create_output` followed by `load_payload` returns the
payload unchanged (modulo JSON round-trip) in the KV and document backends
for every payload, and in the embedded-SQL backend for every *truthy*
payload; a falsy payload (`[]`, `0`, `""`, `false`, `null`, `{}`) or an
absent one is stored as `{}` by the embedded-SQL backend, and an absent one
as `{}` by all backends. -/
theorem c5_create_output_load_payload_roundtrip :
    (∀ (s : Sqlite.St) (q id : String) (pid : Option String) (P : Json)
        (now : Int), (∀ r ∈ s.items, r.id ≠ id) → P.isTruthy = true →
        (Sqlite.loadPayload
            (Sqlite.createOutput s q id pid (some P) now).snd id).fst =
          .ok P) ∧
    (∀ (s : Sqlite.St) (q id : String) (pid : Option String) (P : Json)
        (now : Int), (∀ r ∈ s.items, r.id ≠ id) → P.isTruthy = false →
        (Sqlite.loadPayload
            (Sqlite.createOutput s q id pid (some P) now).snd id).fst =
          .ok (.obj [])) ∧
    (∀ (s : Sqlite.St) (q id : String) (pid : Option String) (now : Int),
        (∀ r ∈ s.items, r.id ≠ id) →
        (Sqlite.loadPayload
            (Sqlite.createOutput s q id pid none now).snd id).fst =
          .ok (.obj [])) ∧
    (∀ (s : Redis.St) (q id pid : String) (P : Option Json) (now : Int),
        (s.payloadHash q id).bind (·.payload) = none →
        (Redis.loadPayload
            (Redis.createOutput s q id pid P now).snd q id).fst =
          .ok (P.getD (.obj []))) ∧
    (∀ (s : Docdb.St) (q id pid : String) (P : Option Json) (now : Int),
        (∀ d ∈ s.docs q, d.item_id ≠ id) →
        (∀ d ∈ s.docs (q ++ "_output"), d.item_id ≠ id) →
        (Docdb.loadPayload
            (Docdb.createOutput s q id pid P now).snd q id).fst =
          .ok (P.getD (.obj []))) := by
  refine ⟨?_, ?_, ?_, ?_, ?_⟩
  · intro s q id pid P now hfresh hP
    rw [Sqlite.sqliteCreateOutput_load s q id pid (some P) now hfresh]
    simp [hP]
  · intro s q id pid P now hfresh hP
    rw [Sqlite.sqliteCreateOutput_load s q id pid (some P) now hfresh]
    simp [hP]
  · intro s q id pid now hfresh
    rw [Sqlite.sqliteCreateOutput_load s q id pid none now hfresh]
  · intro s q id pid P now hfresh
    exact Redis.redisCreateOutput_load s q id pid P now hfresh
  · intro s q id pid P now hfresh1 hfresh2
    exact Docdb.docdbCreateOutput_load s q id pid P now hfresh1 hfresh2

/-- C5 witness: a truthy payload round-trips through the embedded-SQL
backend, and `[]` round-trips through the KV backend. -/
theorem c5_create_output_load_payload_roundtrip_spot :
    (Sqlite.loadPayload
        (Sqlite.createOutput Sqlite.emptySt "q" "o1" none
          (some (.num 7)) 0).snd "o1").fst = .ok (.num 7) ∧
    (Redis.loadPayload
        (Redis.createOutput Redis.emptySt "q" "o2" "p"
          (some (.arr [])) 0).snd "q" "o2").fst = .ok (.arr []) := by
  constructor
  · exact c5_create_output_load_payload_roundtrip.1 Sqlite.emptySt "q" "o1"
      none (.num 7) 0 (by intro r hr; cases hr) rfl
  · exact (c5_create_output_load_payload_roundtrip.2.2.2.1 Redis.emptySt
      "q" "o2" "p" (some (.arr [])) 0 rfl)

end Claims

namespace Sqlite

open WorkQ

/-- Error classification of the embedded-SQL `release_input`: `ValueError`
exactly for a non-terminal state argument, or FAILED with a missing/empty
`exception['message']`. -/
theorem sqliteReleaseInput_valueError_iff (s : St) (id : String) (st : StateArg)
    (exc : Option ExcDict) (now : Int) :
    (releaseInput s id st exc now).fst = .error .valueError ↔
      ((∃ x, st = .other x) ∨
        (st = .FAILED ∧ strFalsy (exc.bind (·.emsg)) = true)) := by
  cases st with
  | other x => simp [releaseInput]
  | DONE => simp [releaseInput]
  | FAILED =>
    by_cases hm : strFalsy (exc.bind (·.emsg)) = true
    · simp [releaseInput, hm]
    · simp [releaseInput, hm]

/-- The embedded-SQL `release_input` on an id unknown to the table never
changes the state: every error branch returns the state unchanged, and the
`UPDATE` of the success branch matches no row. -/
theorem sqliteReleaseInput_unknown_id_noop (s : St) (id : String) (st : StateArg)
    (exc : Option ExcDict) (now : Int)
    (hfresh : ∀ r ∈ s.items, r.id ≠ id) :
    (releaseInput s id st exc now).snd = s := by
  obtain ⟨items, fileRows, fs⟩ := s
  have hmap : ∀ (f : Row → Row),
      (items.map fun r => if r.id == id then f r else r) = items := by
    intro f
    conv_rhs => rw [← List.map_id items]
    apply List.map_congr_left
    intro r hr
    have hne : (r.id == id) = false := by simpa using hfresh r hr
    simp [hne]
  cases st with
  | other x => rfl
  | DONE =>
    simp only [releaseInput]
    rw [if_neg (by simp)]
    exact congrArg (fun l => St.mk l fileRows fs) (hmap _)
  | FAILED =>
    by_cases hm : strFalsy (exc.bind (·.emsg)) = true
    · simp [releaseInput, hm]
    · simp only [releaseInput]
      rw [if_neg (by simp [hm])]
      exact congrArg (fun l => St.mk l fileRows fs) (hmap _)

end Sqlite

namespace Docdb

open WorkQ

/-- `update_one` with a filter matching no document is the identity. -/
theorem updateFirst_eq_self (docs : List Doc) (p : Doc → Bool) (f : Doc → Doc)
    (h : ∀ d ∈ docs, p d = false) : updateFirst docs p f = docs := by
  induction docs with
  | nil => rfl
  | cons d rest ih =>
    simp only [updateFirst, h d (by simp)]
    simp [ih fun x hx => h x (by simp [hx])]

/-- Error classification of the document-store `release_input`: `ValueError`
exactly for a non-terminal state argument, or FAILED with a falsy exception
argument. -/
theorem docdbReleaseInput_valueError_iff (s : St) (q id : String) (st : StateArg)
    (exc : Option ExcDict) (now : Int) :
    (releaseInput s q id st exc now).fst = .error .valueError ↔
      ((∃ x, st = .other x) ∨ (st = .FAILED ∧ exc = none)) := by
  cases st with
  | other x => simp [releaseInput]
  | DONE => simp [releaseInput]
  | FAILED => cases exc <;> simp [releaseInput]

/-- The document-store `release_input` on an id unknown to the input
collection never changes the state (`matched_count == 0` only logs a
warning). -/
theorem docdbReleaseInput_unknown_id_noop (s : St) (q id : String) (st : StateArg)
    (exc : Option ExcDict) (now : Int)
    (hfresh : ∀ d ∈ s.docs q, d.item_id ≠ id) :
    (releaseInput s q id st exc now).snd = s := by
  obtain ⟨docs, gridfs⟩ := s
  have hupd : ∀ (f : Doc → Doc),
      updateFirst (docs q) (fun d => d.item_id == id) f = docs q := by
    intro f
    exact updateFirst_eq_self _ _ _ (by
      intro d hd
      simpa using hfresh d hd)
  have hcoll : ∀ (f : Doc → Doc),
      updColl docs q (updateFirst (docs q) (fun d => d.item_id == id) f) =
        docs := by
    intro f
    funext j
    simp only [updColl, hupd]
    split <;> simp_all
  cases st with
  | other x => rfl
  | DONE =>
    simp only [releaseInput]
    rw [if_neg (by simp)]
    exact congrArg (fun dd => St.mk dd gridfs) (hcoll _)
  | FAILED =>
    cases exc with
    | none => rfl
    | some e =>
      simp only [releaseInput]
      rw [if_neg (by simp)]
      exact congrArg (fun dd => St.mk dd gridfs) (hcoll _)

end Docdb

namespace Sqlite

open WorkQ

/-- The embedded-SQL `release_input` either succeeds or raises `ValueError`;
no other error kind can surface. -/
theorem sqliteReleaseInput_fst_cases (s : St) (id : String) (st : StateArg)
    (exc : Option ExcDict) (now : Int) :
    (releaseInput s id st exc now).fst = .ok () ∨
    (releaseInput s id st exc now).fst = .error .valueError := by
  cases st with
  | other x => right; rfl
  | DONE =>
    left
    simp only [releaseInput]
    rw [if_neg (by simp)]
  | FAILED =>
    by_cases hm : strFalsy (exc.bind (·.emsg)) = true
    · right; simp [releaseInput, hm]
    · left
      simp only [releaseInput]
      rw [if_neg (by simp [hm])]

end Sqlite

namespace Docdb

open WorkQ

/-- The document-store `release_input` either succeeds or raises
`ValueError`. -/
theorem docdbReleaseInput_fst_cases (s : St) (q id : String) (st : StateArg)
    (exc : Option ExcDict) (now : Int) :
    (releaseInput s q id st exc now).fst = .ok () ∨
    (releaseInput s q id st exc now).fst = .error .valueError := by
  cases st with
  | other x => right; rfl
  | DONE =>
    left
    simp only [releaseInput]
    rw [if_neg (by simp)]
  | FAILED =>
    cases exc with
    | none => right; rfl
    | some e =>
      left
      simp only [releaseInput]
      rw [if_neg (by simp)]

end Docdb

namespace Claims

open WorkQ

/-- C6: `release_input` raises an InvalidArgument-kind error (`ValueError`)
iff the state argument is not a terminal `State` member, or it is FAILED with
the required exception missing (embedded-SQL: missing/empty
`exception['message']`; document store: falsy `exception`); no other error
kind is raised, and for arguments that pass validation a release on an id
unknown to the backend leaves the store unchanged (a warning-only no-op). -/
theorem c6_release_invalid_argument_iff_and_unknown_noop :
    (∀ (s : Sqlite.St) (id : String) (st : StateArg) (exc : Option ExcDict)
        (now : Int),
        ((Sqlite.releaseInput s id st exc now).fst = .error .valueError ↔
          ((∃ x, st = .other x) ∨
            (st = .FAILED ∧ strFalsy (exc.bind (·.emsg)) = true))) ∧
        ((Sqlite.releaseInput s id st exc now).fst = .ok () ∨
          (Sqlite.releaseInput s id st exc now).fst = .error .valueError) ∧
        ((∀ r ∈ s.items, r.id ≠ id) →
          (Sqlite.releaseInput s id st exc now).snd = s)) ∧
    (∀ (s : Docdb.St) (q id : String) (st : StateArg) (exc : Option ExcDict)
        (now : Int),
        ((Docdb.releaseInput s q id st exc now).fst = .error .valueError ↔
          ((∃ x, st = .other x) ∨ (st = .FAILED ∧ exc = none))) ∧
        ((Docdb.releaseInput s q id st exc now).fst = .ok () ∨
          (Docdb.releaseInput s q id st exc now).fst = .error .valueError) ∧
        ((∀ d ∈ s.docs q, d.item_id ≠ id) →
          (Docdb.releaseInput s q id st exc now).snd = s)) := by
  constructor
  · intro s id st exc now
    exact ⟨Sqlite.sqliteReleaseInput_valueError_iff s id st exc now,
      Sqlite.sqliteReleaseInput_fst_cases s id st exc now,
      fun hfresh => Sqlite.sqliteReleaseInput_unknown_id_noop s id st exc now hfresh⟩
  · intro s q id st exc now
    exact ⟨Docdb.docdbReleaseInput_valueError_iff s q id st exc now,
      Docdb.docdbReleaseInput_fst_cases s q id st exc now,
      fun hfresh => Docdb.docdbReleaseInput_unknown_id_noop s q id st exc now hfresh⟩

/-- C6 witness: on concrete inputs — a FAILED release without an exception
message raises `ValueError`, and a DONE release of an unknown id on the empty
store succeeds and changes nothing. -/
theorem c6_release_invalid_argument_iff_and_unknown_noop_spot :
    (Sqlite.releaseInput Sqlite.emptySt "x" .FAILED none 0).fst =
      .error .valueError ∧
    (Sqlite.releaseInput Sqlite.emptySt "x" .DONE none 0).snd =
      Sqlite.emptySt := by
  constructor
  · exact (c6_release_invalid_argument_iff_and_unknown_noop.1
        Sqlite.emptySt "x" .FAILED none 0).1.mpr (.inr ⟨rfl, rfl⟩)
  · exact (c6_release_invalid_argument_iff_and_unknown_noop.1
        Sqlite.emptySt "x" .DONE none 0).2.2 (by intro r hr; cases hr)

end Claims

namespace Sqlite

open WorkQ

/-- The `add_file` operation never touches the `work_items` table. -/
theorem addFile_items_eq (s : St) (fd id name : String) (c : List Nat) :
    (addFile s fd id name c).snd.items = s.items := by
  simp only [addFile]
  split_ifs <;> rfl

/-- The `reserved_at` / state invariant that holds on every reachable
embedded-SQL state: a PENDING row has no `reserved_at`, a RESERVED row has
one.  (Released rows are unconstrained: `release_input` does not clear
`reserved_at`.) -/
theorem reach_reserved_at_invariant (s : St) (h : Reach s) :
    ∀ r ∈ s.items, (r.state = .pending → r.reserved_at = none) ∧
      (r.state = .reserved → r.reserved_at ≠ none) := by
  induction h with
  | init => intro r hr; cases hr
  | seed s q id p now hs ih =>
    intro r hr
    simp only [seedInput] at hr
    rcases List.mem_append.mp hr with h1 | h2
    · exact ih r h1
    · have : r = _ := List.mem_singleton.mp h2
      subst this
      exact ⟨fun _ => rfl, fun hcon => by cases hcon⟩
  | create s q id pid p now hs ih =>
    intro r hr
    simp only [createOutput] at hr
    rcases List.mem_append.mp hr with h1 | h2
    · exact ih r h1
    · have : r = _ := List.mem_singleton.mp h2
      subst this
      exact ⟨fun _ => rfl, fun hcon => by cases hcon⟩
  | reserve s q now hs ih =>
    intro r hr
    rcases hop : oldestPending s.items q with _ | w
    · simp only [reserveInput, hop] at hr
      exact ih r hr
    · simp only [reserveInput, hop] at hr
      obtain ⟨r0, hr0, rfl⟩ := List.mem_map.mp hr
      by_cases hid : (r0.id == w.id) = true
      · simp only [reserveStamp, hid, if_true]
        refine ⟨fun hcon => ?_, fun _ => ?_⟩
        · cases hcon
        · simp
      · simp only [reserveStamp, hid]
        simp only [Bool.false_eq_true, if_false] at hid ⊢
        exact ih r0 hr0
  | release s id st e now hs ih =>
    intro r hr
    cases st with
    | other x => exact ih r hr
    | DONE =>
      simp only [releaseInput] at hr
      rw [if_neg (by simp)] at hr
      obtain ⟨r0, hr0, rfl⟩ := List.mem_map.mp hr
      by_cases hid : (r0.id == id) = true
      · simp only [hid, if_true]
        refine ⟨fun hcon => ?_, fun hcon => ?_⟩
        · cases hcon
        · cases hcon
      · simp only [hid, Bool.false_eq_true, if_false]
        exact ih r0 hr0
    | FAILED =>
      by_cases hm : strFalsy (e.bind (·.emsg)) = true
      · have hsnd : (releaseInput s id .FAILED e now).snd = s := by
          simp [releaseInput, hm]
        rw [hsnd] at hr
        exact ih r hr
      · simp only [releaseInput] at hr
        rw [if_neg (by simp [hm])] at hr
        obtain ⟨r0, hr0, rfl⟩ := List.mem_map.mp hr
        by_cases hid : (r0.id == id) = true
        · simp only [hid, if_true]
          refine ⟨fun hcon => ?_, fun hcon => ?_⟩
          · cases hcon
          · cases hcon
        · simp only [hid, Bool.false_eq_true, if_false]
          exact ih r0 hr0
  | recov s timeout now hs ih =>
    intro r hr
    simp only [recover] at hr
    obtain ⟨r0, hr0, rfl⟩ := List.mem_map.mp hr
    by_cases ho : orphaned timeout now r0 = true
    · simp [ho]
    · simp only [ho, Bool.false_eq_true, if_false]
      exact ih r0 hr0
  | addf s fd id n c hs ih =>
    intro r hr
    rw [addFile_items_eq] at hr
    exact ih r hr

end Sqlite

namespace Sqlite

open WorkQ

/-- The embedded-SQL `release_input` never changes any row's `reserved_at`
(the `UPDATE` sets state, `released_at` and the exception columns only). -/
theorem sqliteReleaseInput_preserves_reserved_at (s : St) (id : String)
    (st : StateArg) (exc : Option ExcDict) (now : Int) :
    (releaseInput s id st exc now).snd.items.map (·.reserved_at) =
      s.items.map (·.reserved_at) := by
  cases st with
  | other x => rfl
  | DONE =>
    simp only [releaseInput]
    rw [if_neg (by simp)]
    simp only [List.map_map]
    apply List.map_congr_left
    intro r hr
    simp only [Function.comp]
    split <;> rfl
  | FAILED =>
    by_cases hm : strFalsy (exc.bind (·.emsg)) = true
    · simp [releaseInput, hm]
    · simp only [releaseInput]
      rw [if_neg (by simp [hm])]
      simp only [List.map_map]
      apply List.map_congr_left
      intro r hr
      simp only [Function.comp]
      split <;> rfl

end Sqlite

namespace Redis

open WorkQ

/-- The KV `release_input` never changes any `reserved_at` timestamp (it
writes `released_at`, the terminal state and exception keys only). -/
theorem redisReleaseInput_preserves_reserved_at (s : St) (q id : String)
    (st : StateArg) (exc : Option ExcDict) (now : Int) (q2 id2 : String) :
    ((releaseInput s q id st exc now).snd.timesHash q2 id2).reserved_at =
      (s.timesHash q2 id2).reserved_at := by
  cases st with
  | other x => rfl
  | DONE =>
    simp only [releaseInput]
    rw [if_neg (by simp)]
    simp only [upd2]
    split <;> rename_i h
    · rw [h.1, h.2]
      rfl
    · rfl
  | FAILED =>
    cases exc with
    | none => rfl
    | some e =>
      simp only [releaseInput]
      rw [if_neg (by simp)]
      simp only [upd2]
      split <;> rename_i h
      · rw [h.1, h.2]
        rfl
      · rfl

end Redis

namespace Docdb

open WorkQ

/-- A field-preserving per-document update commutes with projecting that
field over `update_one`. -/
theorem updateFirst_map_eq (docs : List Doc) (p : Doc → Bool) (f : Doc → Doc)
    {α : Type} (g : Doc → α) (hg : ∀ d, g (f d) = g d) :
    (updateFirst docs p f).map g = docs.map g := by
  induction docs with
  | nil => rfl
  | cons d rest ih =>
    simp only [updateFirst]
    split
    · simp [hg d]
    · simp [ih]

/-- The document-store `release_input` never changes any document's
`reserved_at` (the `$set` covers state, `released_at` and `exception`
only). -/
theorem docdbReleaseInput_preserves_reserved_at (s : St) (q id : String)
    (st : StateArg) (exc : Option ExcDict) (now : Int) (q2 : String) :
    ((releaseInput s q id st exc now).snd.docs q2).map (·.reserved_at) =
      (s.docs q2).map (·.reserved_at) := by
  have hcase : ∀ (f : Doc → Doc), (∀ d, (f d).reserved_at = d.reserved_at) →
      ((updColl s.docs q
          (updateFirst (s.docs q) (fun d => d.item_id == id) f)) q2).map
        (·.reserved_at) = (s.docs q2).map (·.reserved_at) := by
    intro f hf
    simp only [updColl]
    split <;> rename_i h
    · rw [h, updateFirst_map_eq _ _ _ _ hf]
    · rfl
  cases st with
  | other x => rfl
  | DONE =>
    simp only [releaseInput]
    rw [if_neg (by simp)]
    exact hcase _ (fun d => rfl)
  | FAILED =>
    cases exc with
    | none => rfl
    | some e =>
      simp only [releaseInput]
      rw [if_neg (by simp)]
      exact hcase _ (fun d => rfl)

end Docdb

namespace Redis

open WorkQ

/-- Reading a point update of a (queue, id)-indexed component at the updated
key. -/
theorem upd2_self {α : Type} (f : String → String → α) (q id : String)
    (v : α) : upd2 f q id v q id = v := by
  simp [upd2]

/-- Reading a point update of a (queue, id)-indexed component elsewhere. -/
theorem upd2_other {α : Type} (f : String → String → α) (q id : String)
    (v : α) (qn id2 : String) (h : ¬(qn = q ∧ id2 = id)) :
    upd2 f q id v qn id2 = f qn id2 := by
  simp only [upd2]
  exact if_neg h

/-- Reading a point update of a queue-indexed component at the updated key. -/
theorem upd1_self {α : Type} (f : String → α) (q : String) (v : α) :
    upd1 f q v q = v := by
  simp [upd1]

/-- Reading a point update of a queue-indexed component elsewhere. -/
theorem upd1_other {α : Type} (f : String → α) (q : String) (v : α)
    (q2 : String) (h : q2 ≠ q) : upd1 f q v q2 = f q2 := by
  simp only [upd1]
  exact if_neg h

/-- `HSET {q}:payload:{id} state v` makes the hash's state field `v` whether
or not the hash existed before. -/
theorem hsetState_state (h : Option PayloadHash) (v : String) :
    (hsetState h v).bind (·.state) = some v := by
  cases h <;> rfl

/-- `seed_input` writes the payload hash (state PENDING) and only the
`created_at` field of the timestamps hash. -/
theorem redisSeedInput_proj (s : St) (q id parent : String) (p : Option Json)
    (now : Int) :
    (seedInput s q id parent p now).snd.payloadHash =
      upd2 s.payloadHash q id
        (some ⟨some (p.getD (.obj [])), some q, some "PENDING"⟩) ∧
    (seedInput s q id parent p now).snd.timesHash =
      upd2 s.timesHash q id
        { s.timesHash q id with created_at := some now } := by
  by_cases hp : parent = "" <;>
    exact ⟨by simp [seedInput, hp], by simp [seedInput, hp]⟩

/-- `create_output` writes the output-queue payload hash (state PENDING) and
only the `created_at` field of the output-queue timestamps hash. -/
theorem redisCreateOutput_proj (s : St) (q id parent : String)
    (p : Option Json) (now : Int) :
    (createOutput s q id parent p now).snd.payloadHash =
      upd2 s.payloadHash (q ++ "_output") id
        (some ⟨some (p.getD (.obj [])), some (q ++ "_output"),
          some "PENDING"⟩) ∧
    (createOutput s q id parent p now).snd.timesHash =
      upd2 s.timesHash (q ++ "_output") id
        { s.timesHash (q ++ "_output") id with created_at := some now } := by
  by_cases hp : parent = "" <;>
    exact ⟨by simp [createOutput, hp], by simp [createOutput, hp]⟩

/-- A successful KV reservation marks the payload-hash state RESERVED and
sets `reserved_at`, both for the reserved id, touching no other hash. -/
theorem redisReserveInput_hash_proj (s : St) (q : String) (now : Int)
    (id : String) (s' : St) (h : reserveInput s q now = (.ok id, s')) :
    s'.payloadHash =
      upd2 s.payloadHash q id (hsetState (s.payloadHash q id) "RESERVED") ∧
    s'.timesHash =
      upd2 s.timesHash q id
        { s.timesHash q id with reserved_at := some now } := by
  unfold reserveInput at h
  cases hg : (s.pending q).getLast? with
  | none =>
    rw [hg] at h
    injection h with h1 h2
    cases h1
  | some x =>
    rw [hg] at h
    injection h with h1 h2
    injection h1 with h1
    subst h1
    rw [← h2]
    exact ⟨rfl, rfl⟩

/-- After `release_input` a payload hash's state field is COMPLETED, FAILED,
or the hash is unchanged. -/
theorem redisReleaseInput_payload_cases (s : St) (q id : String)
    (st : StateArg) (exc : Option ExcDict) (now : Int) (qn id2 : String) :
    ((releaseInput s q id st exc now).snd.payloadHash qn id2).bind (·.state) =
        some "COMPLETED" ∨
    ((releaseInput s q id st exc now).snd.payloadHash qn id2).bind (·.state) =
        some "FAILED" ∨
    (releaseInput s q id st exc now).snd.payloadHash qn id2 =
        s.payloadHash qn id2 := by
  cases st with
  | other x => exact .inr (.inr rfl)
  | DONE =>
    simp only [releaseInput]
    rw [if_neg (by simp)]
    by_cases hqi : qn = q ∧ id2 = id
    · obtain ⟨rfl, rfl⟩ := hqi
      left
      simp only [upd2]
      split <;> rename_i hc
      · exact hsetState_state _ _
      · exact absurd (by simp) hc
    · right; right
      simp only [upd2]
      exact if_neg hqi
  | FAILED =>
    cases exc with
    | none => exact .inr (.inr rfl)
    | some e =>
      simp only [releaseInput]
      rw [if_neg (by simp)]
      by_cases hqi : qn = q ∧ id2 = id
      · obtain ⟨rfl, rfl⟩ := hqi
        right; left
        simp only [upd2]
        split <;> rename_i hc
        · exact hsetState_state _ _
        · exact absurd (by simp) hc
      · right; right
        simp only [upd2]
        exact if_neg hqi

/-- Recovering one stale item keeps the PENDING/RESERVED `reserved_at`
invariant: the recovered id gets state PENDING together with a cleared
`reserved_at`, and no other hash changes. -/
theorem redisRecoverOne_inv (s : St) (q id : String)
    (ih : ∀ qn id2,
      (((s.payloadHash qn id2).bind (·.state)) = some "PENDING" →
        (s.timesHash qn id2).reserved_at = none) ∧
      (((s.payloadHash qn id2).bind (·.state)) = some "RESERVED" →
        (s.timesHash qn id2).reserved_at ≠ none)) :
    ∀ qn id2,
      ((((recoverOne s q id).payloadHash qn id2).bind (·.state)) =
          some "PENDING" →
        ((recoverOne s q id).timesHash qn id2).reserved_at = none) ∧
      ((((recoverOne s q id).payloadHash qn id2).bind (·.state)) =
          some "RESERVED" →
        ((recoverOne s q id).timesHash qn id2).reserved_at ≠ none) := by
  intro qn id2
  by_cases hqi : qn = q ∧ id2 = id
  · obtain ⟨rfl, rfl⟩ := hqi
    have h1 : (recoverOne s qn id2).timesHash qn id2 =
        { s.timesHash qn id2 with reserved_at := none } := by
      simp [recoverOne, upd2]
    have h2 : (recoverOne s qn id2).payloadHash qn id2 =
        hsetState (s.payloadHash qn id2) "PENDING" := by
      simp [recoverOne, upd2]
    constructor
    · intro _
      rw [h1]
    · intro hcon
      rw [h2, hsetState_state] at hcon
      exact absurd hcon (by simp)
  · have h1 : (recoverOne s q id).timesHash qn id2 = s.timesHash qn id2 := by
      simp [recoverOne, upd2, hqi]
    have h2 : (recoverOne s q id).payloadHash qn id2 =
        s.payloadHash qn id2 := by
      simp [recoverOne, upd2, hqi]
    rw [h1, h2]
    exact ih qn id2

/-- One unfolding of the KV orphan-recovery loop. -/
theorem redisRecoverLoop_cons (q : String) (cutoff : Int) (id : String)
    (rest : List String) (s : St) :
    recoverLoop q cutoff (id :: rest) s =
      match (s.timesHash q id).reserved_at with
      | some r =>
        if r < cutoff then
          (id :: (recoverLoop q cutoff rest (recoverOne s q id)).fst,
            (recoverLoop q cutoff rest (recoverOne s q id)).snd)
        else recoverLoop q cutoff rest s
      | none => recoverLoop q cutoff rest s := rfl

/-- The KV orphan-recovery loop preserves the PENDING/RESERVED `reserved_at`
invariant. -/
theorem redisRecoverLoop_inv (q : String) (cutoff : Int) :
    ∀ (todo : List String) (s : St),
      (∀ qn id2,
        (((s.payloadHash qn id2).bind (·.state)) = some "PENDING" →
          (s.timesHash qn id2).reserved_at = none) ∧
        (((s.payloadHash qn id2).bind (·.state)) = some "RESERVED" →
          (s.timesHash qn id2).reserved_at ≠ none)) →
      ∀ qn id2,
        ((((recoverLoop q cutoff todo s).snd.payloadHash qn id2).bind
            (·.state)) = some "PENDING" →
          ((recoverLoop q cutoff todo s).snd.timesHash qn id2).reserved_at =
            none) ∧
        ((((recoverLoop q cutoff todo s).snd.payloadHash qn id2).bind
            (·.state)) = some "RESERVED" →
          ((recoverLoop q cutoff todo s).snd.timesHash qn id2).reserved_at ≠
            none) := by
  intro todo
  induction todo with
  | nil => intro s ih; exact ih
  | cons id rest ih3 =>
    intro s ih
    rcases hts : (s.timesHash q id).reserved_at with _ | r
    · have hstep : recoverLoop q cutoff (id :: rest) s =
          recoverLoop q cutoff rest s := by
        rw [redisRecoverLoop_cons, hts]
      rw [hstep]
      exact ih3 s ih
    · by_cases hlt : r < cutoff
      · have hstep : recoverLoop q cutoff (id :: rest) s =
            (id :: (recoverLoop q cutoff rest (recoverOne s q id)).fst,
              (recoverLoop q cutoff rest (recoverOne s q id)).snd) := by
          rw [redisRecoverLoop_cons, hts]
          exact if_pos hlt
        rw [hstep]
        exact ih3 (recoverOne s q id) (redisRecoverOne_inv s q id ih)
      · have hstep : recoverLoop q cutoff (id :: rest) s =
            recoverLoop q cutoff rest s := by
          rw [redisRecoverLoop_cons, hts]
          exact if_neg hlt
        rw [hstep]
        exact ih3 s ih

/-- The PENDING/RESERVED `reserved_at` invariant on every reachable KV state:
an item whose payload-hash state is PENDING has no `reserved_at` in its
timestamps hash, and one whose state is RESERVED has one.  (Released items
are unconstrained: `release_input` does not clear `reserved_at`.) -/
theorem redisReach_reserved_at_invariant (s : St) (h : Reach s) :
    ∀ qn id,
      (((s.payloadHash qn id).bind (·.state)) = some "PENDING" →
        (s.timesHash qn id).reserved_at = none) ∧
      (((s.payloadHash qn id).bind (·.state)) = some "RESERVED" →
        (s.timesHash qn id).reserved_at ≠ none) := by
  induction h with
  | init =>
    intro qn id
    constructor <;> intro hcon <;> simp [emptySt] at hcon
  | seed s q id parent p now hs hfresh ih =>
    obtain ⟨hpl, hth⟩ := redisSeedInput_proj s q id parent p now
    intro qn id2
    rw [hpl, hth]
    by_cases hqi : qn = q ∧ id2 = id
    · obtain ⟨rfl, rfl⟩ := hqi
      rw [upd2_self, upd2_self]
      constructor
      · intro _
        exact hfresh
      · intro hcon
        exact absurd hcon (by simp)
    · rw [upd2_other _ _ _ _ _ _ hqi, upd2_other _ _ _ _ _ _ hqi]
      exact ih qn id2
  | create s q id parent p now hs hfresh ih =>
    obtain ⟨hpl, hth⟩ := redisCreateOutput_proj s q id parent p now
    intro qn id2
    rw [hpl, hth]
    by_cases hqi : qn = q ++ "_output" ∧ id2 = id
    · obtain ⟨rfl, rfl⟩ := hqi
      rw [upd2_self, upd2_self]
      constructor
      · intro _
        exact hfresh
      · intro hcon
        exact absurd hcon (by simp)
    · rw [upd2_other _ _ _ _ _ _ hqi, upd2_other _ _ _ _ _ _ hqi]
      exact ih qn id2
  | reserve s q now hs ih =>
    rcases hstep : reserveInput s q now with ⟨res, s'⟩
    cases res with
    | error e =>
      have he : s' = s := by
        unfold reserveInput at hstep
        cases hg : (s.pending q).getLast? with
        | none =>
          rw [hg] at hstep
          injection hstep with _ h2
          exact h2.symm
        | some x =>
          rw [hg] at hstep
          injection hstep with h1 _
          cases h1
      rw [he]
      exact ih
    | ok id =>
      obtain ⟨hpl, hth⟩ := redisReserveInput_hash_proj s q now id s' hstep
      intro qn id2
      show (((s'.payloadHash qn id2).bind (·.state)) = some "PENDING" →
          (s'.timesHash qn id2).reserved_at = none) ∧
        (((s'.payloadHash qn id2).bind (·.state)) = some "RESERVED" →
          (s'.timesHash qn id2).reserved_at ≠ none)
      rw [hpl, hth]
      by_cases hqi : qn = q ∧ id2 = id
      · obtain ⟨rfl, rfl⟩ := hqi
        rw [upd2_self, upd2_self, hsetState_state]
        constructor
        · intro hcon
          exact absurd hcon (by simp)
        · intro _
          simp
      · rw [upd2_other _ _ _ _ _ _ hqi, upd2_other _ _ _ _ _ _ hqi]
        exact ih qn id2
  | release s q id st e now hs ih =>
    intro qn id2
    rcases redisReleaseInput_payload_cases s q id st e now qn id2 with
      hC | hF | hU
    · constructor <;> intro hcon <;> rw [hC] at hcon <;> simp at hcon
    · constructor <;> intro hcon <;> rw [hF] at hcon <;> simp at hcon
    · rw [hU]
      constructor <;> intro hcon <;>
        rw [redisReleaseInput_preserves_reserved_at]
      · exact (ih qn id2).1 hcon
      · exact (ih qn id2).2 hcon
  | recov s q timeout now hs ih =>
    exact redisRecoverLoop_inv q (now - timeout) (s.processing q) s ih
  | addf s fd q id n c hs ih =>
    have hhash : (addFile s fd q id n c).snd.payloadHash = s.payloadHash ∧
        (addFile s fd q id n c).snd.timesHash = s.timesHash := by
      unfold addFile
      split
      · exact ⟨rfl, rfl⟩
      · split
        · exact ⟨rfl, rfl⟩
        · split
          · exact ⟨rfl, rfl⟩
          · split
            · exact ⟨rfl, rfl⟩
            · split
              · exact ⟨rfl, rfl⟩
              · split
                · exact ⟨rfl, rfl⟩
                · exact ⟨rfl, rfl⟩
    rw [hhash.1, hhash.2]
    exact ih

end Redis

namespace Docdb

open WorkQ

/-- A document of `update_one`'s result collection is an original document or
the image of an original document under the update. -/
theorem updateFirst_mem_elim (docs : List Doc) (p : Doc → Bool)
    (f : Doc → Doc) (d' : Doc) (h : d' ∈ updateFirst docs p f) :
    d' ∈ docs ∨ ∃ d, d ∈ docs ∧ d' = f d := by
  induction docs with
  | nil => cases h
  | cons d rest ih =>
    simp only [updateFirst] at h
    split at h
    · rcases List.mem_cons.mp h with h1 | h1
      · exact .inr ⟨d, List.mem_cons_self d rest, h1⟩
      · exact .inl (List.mem_cons_of_mem d h1)
    · rcases List.mem_cons.mp h with h1 | h1
      · exact .inl (by rw [h1]; exact List.mem_cons_self d rest)
      · rcases ih h1 with h2 | ⟨d0, hd0, h3⟩
        · exact .inl (List.mem_cons_of_mem d h2)
        · exact .inr ⟨d0, List.mem_cons_of_mem d hd0, h3⟩

/-- `update_one` preserves the per-document PENDING/RESERVED `reserved_at`
invariant whenever the update's image satisfies it. -/
theorem docdbUpdateFirst_inv (docs : List Doc) (p : Doc → Bool)
    (f : Doc → Doc)
    (hdocs : ∀ d ∈ docs, (d.state = "PENDING" → d.reserved_at = none) ∧
      (d.state = "RESERVED" → d.reserved_at ≠ none))
    (hf : ∀ d ∈ docs, ((f d).state = "PENDING" → (f d).reserved_at = none) ∧
      ((f d).state = "RESERVED" → (f d).reserved_at ≠ none)) :
    ∀ d ∈ updateFirst docs p f,
      (d.state = "PENDING" → d.reserved_at = none) ∧
      (d.state = "RESERVED" → d.reserved_at ≠ none) := by
  intro d hd
  rcases updateFirst_mem_elim docs p f d hd with h1 | ⟨d0, hd0, h2⟩
  · exact hdocs d h1
  · rw [h2]
    exact hf d0 hd0

/-- A document present after `seed_input` was already present or is the
freshly inserted PENDING document (which has no `reserved_at`). -/
theorem docdbSeedInput_docs_cases (s : St) (q id parent : String)
    (p : Option Json) (callid : Option String) (now : Int) (qn : String)
    (d : Doc)
    (hd : d ∈ (seedInput s q id parent p callid now).snd.docs qn) :
    d ∈ s.docs qn ∨ (d.state = "PENDING" ∧ d.reserved_at = none) := by
  simp only [seedInput] at hd
  rcases hdc : (if strFalsy callid then none else callid) with _ | c <;>
    rw [hdc] at hd <;> dsimp only at hd
  · simp only [updColl] at hd
    by_cases hq : qn = q
    · rw [if_pos hq] at hd
      rcases List.mem_append.mp hd with h1 | h1
      · subst hq
        exact .inl h1
      · rw [List.mem_singleton] at h1
        subst h1
        exact .inr ⟨rfl, rfl⟩
    · rw [if_neg hq] at hd
      exact .inl hd
  · by_cases hany : ((s.docs q).any fun d0 => d0.callid == some c) = true
    · rw [if_pos hany] at hd
      exact .inl hd
    · rw [if_neg hany] at hd
      simp only [updColl] at hd
      by_cases hq : qn = q
      · rw [if_pos hq] at hd
        rcases List.mem_append.mp hd with h1 | h1
        · subst hq
          exact .inl h1
        · rw [List.mem_singleton] at h1
          subst h1
          exact .inr ⟨rfl, rfl⟩
      · rw [if_neg hq] at hd
        exact .inl hd

/-- A document present after `create_output` was already present or is the
freshly inserted PENDING document (which has no `reserved_at`). -/
theorem docdbCreateOutput_docs_cases (s : St) (q id parent : String)
    (p : Option Json) (now : Int) (qn : String) (d : Doc)
    (hd : d ∈ (createOutput s q id parent p now).snd.docs qn) :
    d ∈ s.docs qn ∨ (d.state = "PENDING" ∧ d.reserved_at = none) := by
  simp only [createOutput, updColl] at hd
  split at hd <;> rename_i hq
  · rcases List.mem_append.mp hd with h1 | h1
    · subst hq
      exact .inl h1
    · rw [List.mem_singleton] at h1
      subst h1
      exact .inr ⟨rfl, rfl⟩
  · exact .inl hd

/-- One unfolding of the document-store orphan-update loop (final state
only). -/
theorem docdbRecoverGo_snd (q id : String) (rest : List String) (s : St) :
    (recoverGo q (id :: rest) s).snd =
      (recoverGo q rest
        { s with
            docs := updColl s.docs q
              (updateFirst (s.docs q) (fun d => d.item_id == id)
                (fun d =>
                  { d with state := "PENDING", reserved_at := none })) }).snd :=
  rfl

/-- The document-store orphan-update loop preserves the PENDING/RESERVED
`reserved_at` invariant. -/
theorem docdbRecoverGo_inv (q : String) :
    ∀ (ids : List String) (s : St),
      (∀ qn, ∀ d ∈ s.docs qn,
        (d.state = "PENDING" → d.reserved_at = none) ∧
        (d.state = "RESERVED" → d.reserved_at ≠ none)) →
      ∀ qn, ∀ d ∈ (recoverGo q ids s).snd.docs qn,
        (d.state = "PENDING" → d.reserved_at = none) ∧
        (d.state = "RESERVED" → d.reserved_at ≠ none) := by
  intro ids
  induction ids with
  | nil => intro s ih; exact ih
  | cons id rest ih3 =>
    intro s ih
    rw [docdbRecoverGo_snd]
    refine ih3 _ ?_
    intro qn d hd
    simp only [updColl] at hd
    split at hd <;> rename_i hq
    · subst hq
      refine docdbUpdateFirst_inv _ _ _ (ih qn) ?_ d hd
      intro d0 _
      constructor
      · intro _
        rfl
      · intro hcon
        exact absurd hcon (by simp)
    · exact ih qn d hd

/-- The PENDING/RESERVED `reserved_at` invariant on every reachable
document-store state: a PENDING document has no `reserved_at`, a RESERVED
document has one.  (Released documents are unconstrained: `release_input`
does not clear `reserved_at`.) -/
theorem docdbReach_reserved_at_invariant (s : St) (h : Reach s) :
    ∀ qn, ∀ d ∈ s.docs qn,
      (d.state = "PENDING" → d.reserved_at = none) ∧
      (d.state = "RESERVED" → d.reserved_at ≠ none) := by
  induction h with
  | init => intro qn d hd; cases hd
  | seed s q id parent p callid now hs ih =>
    intro qn d hd
    rcases docdbSeedInput_docs_cases s q id parent p callid now qn d hd with
      h1 | ⟨h1, h2⟩
    · exact ih qn d h1
    · refine ⟨fun _ => h2, fun hcon => ?_⟩
      rw [h1] at hcon
      exact absurd hcon (by simp)
  | create s q id parent p now hs ih =>
    intro qn d hd
    rcases docdbCreateOutput_docs_cases s q id parent p now qn d hd with
      h1 | ⟨h1, h2⟩
    · exact ih qn d h1
    · refine ⟨fun _ => h2, fun hcon => ?_⟩
      rw [h1] at hcon
      exact absurd hcon (by simp)
  | reserve s q now hs ih => exact ih
  | release s q id st e now hs ih =>
    intro qn d hd
    cases st with
    | other x => exact ih qn d hd
    | DONE =>
      simp only [releaseInput] at hd
      rw [if_neg (by simp)] at hd
      simp only [updColl] at hd
      split at hd <;> rename_i hq
      · subst hq
        refine docdbUpdateFirst_inv _ _ _ (ih qn) ?_ d hd
        intro d0 _
        constructor
        · intro hcon
          exact absurd hcon (by simp)
        · intro hcon
          exact absurd hcon (by simp)
      · exact ih qn d hd
    | FAILED =>
      cases e with
      | none =>
        simp only [releaseInput] at hd
        rw [if_pos (by simp)] at hd
        exact ih qn d hd
      | some e0 =>
        simp only [releaseInput] at hd
        rw [if_neg (by simp)] at hd
        simp only [updColl] at hd
        split at hd <;> rename_i hq
        · subst hq
          refine docdbUpdateFirst_inv _ _ _ (ih qn) ?_ d hd
          intro d0 _
          constructor
          · intro hcon
            exact absurd hcon (by simp)
          · intro hcon
            exact absurd hcon (by simp)
        · exact ih qn d hd
  | recov s q timeout now hs ih =>
    exact docdbRecoverGo_inv q
      (((s.docs q).filter (orphanedDoc (now - timeout))).map (·.item_id)) s ih
  | addf s q id n th c hs ih =>
    intro qn d hd
    simp only [addFile] at hd
    split at hd
    · exact ih qn d hd
    split at hd
    · exact ih qn d hd
    split at hd
    · exact ih qn d hd
    split at hd
    · exact ih qn d hd
    split at hd <;> rename_i hdup
    · exact ih qn d hd
    simp only [updColl] at hd
    split at hd <;> rename_i hq
    · subst hq
      rcases updateFirst_mem_elim _ _ _ d hd with h1 | ⟨d0, hd0, h3⟩
      · refine ih qn d ?_
        split at h1
        · exact h1
        · exact h1
      · have hd0s : d0 ∈ s.docs qn := by
          split at hd0
          · exact hd0
          · exact hd0
        rw [h3]
        exact ih qn d0 hd0s
    · refine ih qn d ?_
      split at hd
      · exact hd
      · exact hd

end Docdb

namespace Claims

open WorkQ

/-- C3 counterexample: seed, reserve, then release as COMPLETED on the
embedded-SQL backend — the released item keeps `reserved_at = 1` (the
reservation timestamp); `release_input` does not null it. -/
theorem c3_cex_release_keeps_reserved_at :
    ((Sqlite.releaseInput
        (Sqlite.reserveInput
          (Sqlite.seedInput Sqlite.emptySt "q" "i1" none 0).snd "q" 1).snd
        "i1" .DONE none 2).snd.items.map fun r => (r.state, r.reserved_at)) =
      [(.completed, some 1)] ∧
    (some (1 : Int) ≠ (none : Option Int)) := by
  refine ⟨rfl, by simp⟩

/-- C3 (amended): on every reachable state of each of the three backends, a
PENDING item has `reserved_at = null` and a RESERVED item has a non-null
`reserved_at` (reservation sets it, recovery clears it); but `release_input`
leaves `reserved_at` unchanged in all three backends, so an item released
from RESERVED to COMPLETED/FAILED retains its non-null reservation
timestamp. -/
theorem c3_reserved_at_invariant_release_preserves :
    (∀ (s : Sqlite.St), Sqlite.Reach s →
      ∀ r ∈ s.items, (r.state = .pending → r.reserved_at = none) ∧
        (r.state = .reserved → r.reserved_at ≠ none)) ∧
    (∀ (s : Redis.St), Redis.Reach s →
      ∀ qn id,
        (((s.payloadHash qn id).bind (·.state)) = some "PENDING" →
          (s.timesHash qn id).reserved_at = none) ∧
        (((s.payloadHash qn id).bind (·.state)) = some "RESERVED" →
          (s.timesHash qn id).reserved_at ≠ none)) ∧
    (∀ (s : Docdb.St), Docdb.Reach s →
      ∀ qn, ∀ d ∈ s.docs qn,
        (d.state = "PENDING" → d.reserved_at = none) ∧
        (d.state = "RESERVED" → d.reserved_at ≠ none)) ∧
    (∀ (s : Sqlite.St) (id : String) (st : StateArg) (exc : Option ExcDict)
        (now : Int),
      (Sqlite.releaseInput s id st exc now).snd.items.map (·.reserved_at) =
        s.items.map (·.reserved_at)) ∧
    (∀ (s : Redis.St) (q id : String) (st : StateArg) (exc : Option ExcDict)
        (now : Int) (q2 id2 : String),
      ((Redis.releaseInput s q id st exc now).snd.timesHash q2 id2).reserved_at =
        (s.timesHash q2 id2).reserved_at) ∧
    (∀ (s : Docdb.St) (q id : String) (st : StateArg) (exc : Option ExcDict)
        (now : Int) (q2 : String),
      ((Docdb.releaseInput s q id st exc now).snd.docs q2).map (·.reserved_at) =
        (s.docs q2).map (·.reserved_at)) := by
  refine ⟨?_, ?_, ?_, ?_, ?_, ?_⟩
  · exact fun s h => Sqlite.reach_reserved_at_invariant s h
  · exact fun s h => Redis.redisReach_reserved_at_invariant s h
  · exact fun s h => Docdb.docdbReach_reserved_at_invariant s h
  · exact fun s id st exc now =>
      Sqlite.sqliteReleaseInput_preserves_reserved_at s id st exc now
  · exact fun s q id st exc now q2 id2 =>
      Redis.redisReleaseInput_preserves_reserved_at s q id st exc now q2 id2
  · exact fun s q id st exc now q2 =>
      Docdb.docdbReleaseInput_preserves_reserved_at s q id st exc now q2

/-- C3 witness: the invariants evaluated on concrete reachable states of each
backend (seed one item, reserve it where the backend's reserve works), and
the preservation fact on a concrete release. -/
theorem c3_reserved_at_invariant_release_preserves_spot :
    (((Sqlite.reserveInput
        (Sqlite.seedInput Sqlite.emptySt "q" "i1" none 0).snd "q" 1).snd.items.map
          fun r => (r.state, r.reserved_at)) = [(.reserved, some 1)] ∧
      (∀ r ∈ (Sqlite.reserveInput
          (Sqlite.seedInput Sqlite.emptySt "q" "i1" none 0).snd "q" 1).snd.items,
        (r.state = .pending → r.reserved_at = none) ∧
          (r.state = .reserved → r.reserved_at ≠ none))) ∧
    ((((Redis.reserveInput
          (Redis.seedInput Redis.emptySt "q" "a" "" none 0).snd "q" 1).snd.payloadHash
            "q" "a").bind (·.state) = some "RESERVED" ∧
      ((Redis.reserveInput
          (Redis.seedInput Redis.emptySt "q" "a" "" none 0).snd "q" 1).snd.timesHash
            "q" "a").reserved_at = some 1) ∧
      (∀ qn id,
        ((((Redis.reserveInput
            (Redis.seedInput Redis.emptySt "q" "a" "" none 0).snd
            "q" 1).snd.payloadHash qn id).bind (·.state)) = some "PENDING" →
          ((Redis.reserveInput
            (Redis.seedInput Redis.emptySt "q" "a" "" none 0).snd
            "q" 1).snd.timesHash qn id).reserved_at = none) ∧
        ((((Redis.reserveInput
            (Redis.seedInput Redis.emptySt "q" "a" "" none 0).snd
            "q" 1).snd.payloadHash qn id).bind (·.state)) = some "RESERVED" →
          ((Redis.reserveInput
            (Redis.seedInput Redis.emptySt "q" "a" "" none 0).snd
            "q" 1).snd.timesHash qn id).reserved_at ≠ none))) ∧
    ((((Docdb.seedInput Docdb.emptySt "q" "d1" "" none none 0).snd.docs "q").map
        fun d => (d.state, d.reserved_at)) = [("PENDING", none)] ∧
      (∀ qn, ∀ d ∈ (Docdb.seedInput Docdb.emptySt "q" "d1" "" none none
          0).snd.docs qn,
        (d.state = "PENDING" → d.reserved_at = none) ∧
        (d.state = "RESERVED" → d.reserved_at ≠ none))) ∧
    ((Sqlite.releaseInput
        (Sqlite.reserveInput
          (Sqlite.seedInput Sqlite.emptySt "q" "i1" none 0).snd "q" 1).snd
        "i1" .DONE none 2).snd.items.map (·.reserved_at) =
      (Sqlite.reserveInput
          (Sqlite.seedInput Sqlite.emptySt "q" "i1" none 0).snd "q" 1).snd.items.map
        (·.reserved_at)) := by
  refine ⟨⟨rfl, ?_⟩, ⟨⟨rfl, rfl⟩, ?_⟩, ⟨rfl, ?_⟩, ?_⟩
  · exact c3_reserved_at_invariant_release_preserves.1 _
      (Sqlite.Reach.reserve _ "q" 1
        (Sqlite.Reach.seed _ "q" "i1" none 0 Sqlite.Reach.init))
  · exact c3_reserved_at_invariant_release_preserves.2.1 _
      (Redis.Reach.reserve _ "q" 1
        (Redis.Reach.seed _ "q" "a" "" none 0 Redis.Reach.init rfl))
  · exact c3_reserved_at_invariant_release_preserves.2.2.1 _
      (Docdb.Reach.seed _ "q" "d1" "" none none 0 Docdb.Reach.init)
  · exact c3_reserved_at_invariant_release_preserves.2.2.2.1 _ "i1" .DONE
      none 2

end Claims

namespace Sqlite

open WorkQ

/-- Specification of the embedded-SQL orphan recovery: with unique row ids,
the returned list contains exactly the ids of the RESERVED rows whose
`reserved_at + timeout` is before `now`; those rows become PENDING with
`reserved_at` cleared, and every other row is untouched. -/
theorem recover_spec (s : St) (timeout now : Int)
    (hids : (s.items.map (·.id)).Nodup) :
    ((recover s timeout now).fst =
      .ok ((s.items.filter (orphaned timeout now)).map (·.id))) ∧
    (∀ r ∈ s.items,
      (orphaned timeout now r = true ↔
        r.id ∈ (s.items.filter (orphaned timeout now)).map (·.id))) ∧
    (∀ r ∈ s.items, orphaned timeout now r = true →
      { r with state := PState.pending, reserved_at := none } ∈
        (recover s timeout now).snd.items) ∧
    (∀ r ∈ s.items, orphaned timeout now r = false →
      r ∈ (recover s timeout now).snd.items) := by
  refine ⟨rfl, ?_, ?_, ?_⟩
  · intro r hr
    constructor
    · intro ho
      exact List.mem_map_of_mem (·.id) (List.mem_filter.mpr ⟨hr, ho⟩)
    · intro hmem
      obtain ⟨r2, hr2, hid2⟩ := List.mem_map.mp hmem
      have hr2f := List.mem_filter.mp hr2
      have heq : r2 = r :=
        List.inj_on_of_nodup_map hids hr2f.1 hr hid2
      rw [← heq]
      exact hr2f.2
  · intro r hr ho
    have hmem : (if orphaned timeout now r = true then
        { r with state := PState.pending, reserved_at := none } else r) ∈
        s.items.map (fun r => if orphaned timeout now r = true then
          { r with state := PState.pending, reserved_at := none } else r) :=
      List.mem_map_of_mem _ hr
    rw [if_pos ho] at hmem
    exact hmem
  · intro r hr ho
    have hmem : (if orphaned timeout now r = true then
        { r with state := PState.pending, reserved_at := none } else r) ∈
        s.items.map (fun r => if orphaned timeout now r = true then
          { r with state := PState.pending, reserved_at := none } else r) :=
      List.mem_map_of_mem _ hr
    rw [if_neg (by simp [ho])] at hmem
    exact hmem

end Sqlite

namespace Sqlite

open WorkQ

/-- The argmin fold of the reservation query only produces the accumulator or
a list element. -/
theorem foldl_minStep_mem :
    ∀ (l : List Row) (acc : Option Row) (w : Row),
      l.foldl minStep acc = some w → acc = some w ∨ w ∈ l := by
  intro l
  induction l with
  | nil => exact fun acc w h => .inl h
  | cons x rest ih =>
    intro acc w h
    rcases ih (minStep acc x) w h with h2 | h2
    · cases acc with
      | none =>
        simp only [minStep] at h2
        injection h2 with h3
        exact .inr (by rw [← h3]; exact List.mem_cons_self x rest)
      | some b =>
        simp only [minStep] at h2
        split at h2
        · injection h2 with h3
          exact .inr (by rw [← h3]; exact List.mem_cons_self x rest)
        · exact .inl h2
    · exact .inr (List.mem_cons_of_mem _ h2)

/-- The row selected by the reservation query is a PENDING row of the
queue. -/
theorem oldestPending_mem (items : List Row) (q : String) (w : Row)
    (h : oldestPending items q = some w) :
    w ∈ items ∧ pendingIn q w = true := by
  rcases foldl_minStep_mem _ _ _ h with h2 | h2
  · cases h2
  · have := List.mem_filter.mp h2
    exact ⟨this.1, this.2⟩

/-- The argmin fold keeps its accumulator when no later row is strictly
older. -/
theorem foldl_minStep_keep :
    ∀ (l : List Row) (b : Row),
      (∀ w ∈ l, ¬ w.created_at < b.created_at) →
      l.foldl minStep (some b) = some b := by
  intro l
  induction l with
  | nil => exact fun b _ => rfl
  | cons x rest ih =>
    intro b h
    simp only [List.foldl_cons, minStep]
    rw [if_neg (h x (by simp))]
    exact ih b (fun w hw => h w (by simp [hw]))

/-- Under a strictly ascending `created_at` order the reservation query
selects the head of the pending list. -/
theorem oldestPending_eq_head (items : List Row) (q : String) (w : Row)
    (rest : List Row) (hf : items.filter (pendingIn q) = w :: rest)
    (hs : ∀ x ∈ rest, w.created_at < x.created_at) :
    oldestPending items q = some w := by
  unfold oldestPending
  rw [hf]
  simp only [List.foldl_cons, minStep]
  exact foldl_minStep_keep rest w (fun x hx => not_lt.mpr (hs x hx).le)

/-- Reserving one row turns exactly the rows carrying its id non-pending:
the pending rows of the updated table are the previous pending rows with
that id filtered out. -/
theorem filter_map_reserveStamp (items : List Row) (q idv : String)
    (now : Int) :
    (items.map (reserveStamp idv now)).filter (pendingIn q) =
      (items.filter (pendingIn q)).filter (fun r => r.id != idv) := by
  induction items with
  | nil => rfl
  | cons x rest ih =>
    simp only [List.map_cons, List.filter_cons]
    by_cases hid : (x.id == idv) = true
    · have h1 : pendingIn q (reserveStamp idv now x) = false := by
        simp [reserveStamp, hid, pendingIn]
      rw [h1]
      by_cases hp : pendingIn q x = true
      · simp only [hp, if_true, List.filter_cons]
        have : (x.id != idv) = false := by simp [bne, hid]
        rw [this]
        simpa using ih
      · simp only [hp]
        simpa using ih
    · have hstamp : reserveStamp idv now x = x := by
        simp [reserveStamp, hid]
      rw [hstamp]
      by_cases hp : pendingIn q x = true
      · have hidf : (x.id == idv) = false := by simpa using hid
        simp only [hp, if_true, List.filter_cons]
        have : (x.id != idv) = true := by simp [bne, hidf]
        rw [this]
        simp [ih]
      · simp only [hp]
        simpa using ih

/-- The reservation update preserves every row's id and queue. -/
theorem map_idqueue_reserveStamp (items : List Row) (idv : String)
    (now : Int) :
    (items.map (reserveStamp idv now)).map (fun r => (r.id, r.queue_name)) =
      items.map (fun r => (r.id, r.queue_name)) := by
  rw [List.map_map]
  apply List.map_congr_left
  intro r hr
  simp only [Function.comp, reserveStamp]
  split <;> rfl

/-- The reservation update preserves every row's id. -/
theorem map_id_reserveStamp (items : List Row) (idv : String) (now : Int) :
    (items.map (reserveStamp idv now)).map (·.id) = items.map (·.id) := by
  rw [List.map_map]
  apply List.map_congr_left
  intro r hr
  simp only [Function.comp, reserveStamp]
  split <;> rfl

end Sqlite

namespace Sqlite

open WorkQ

/-- A failed reservation leaves the table unchanged and can only be
`EmptyQueue`. -/
theorem sqliteReserveInput_error_elim (s : St) (q : String) (now : Int)
    (e : PyErr) (s' : St) (h : reserveInput s q now = (.error e, s')) :
    s' = s ∧ e = .emptyQueue := by
  unfold reserveInput at h
  cases hop : oldestPending s.items q with
  | none =>
    rw [hop] at h
    injection h with h1 h2
    injection h1 with h1
    exact ⟨h2.symm, h1.symm⟩
  | some w =>
    rw [hop] at h
    injection h with h1 h2
    cases h1

/-- A successful reservation returns the id of a PENDING row of the queue and
stamps exactly the rows with that id. -/
theorem sqliteReserveInput_ok_elim (s : St) (q : String) (now : Int)
    (id : String) (s' : St) (h : reserveInput s q now = (.ok id, s')) :
    (∃ r ∈ s.items, r.id = id ∧ pendingIn q r = true) ∧
    s'.items = s.items.map (reserveStamp id now) := by
  unfold reserveInput at h
  cases hop : oldestPending s.items q with
  | none =>
    rw [hop] at h
    injection h with h1 h2
    cases h1
  | some w =>
    rw [hop] at h
    injection h with h1 h2
    injection h1 with h1
    have hw := oldestPending_mem _ _ _ hop
    subst h1
    exact ⟨⟨w, hw.1, rfl, hw.2⟩, by rw [← h2]⟩

/-- A row of the stamped table that carries the stamped id is RESERVED. -/
theorem stamped_id_reserved (items : List Row) (idv : String) (now : Int)
    (r : Row) (hr : r ∈ items.map (reserveStamp idv now)) (hid : r.id = idv) :
    r.state = .reserved := by
  obtain ⟨r0, hr0, rfl⟩ := List.mem_map.mp hr
  by_cases h0 : (r0.id == idv) = true
  · simp [reserveStamp, h0]
  · exfalso
    rw [show reserveStamp idv now r0 = r0 by simp [reserveStamp, h0]] at hid
    simp [hid] at h0

/-- A PENDING row of the stamped table was already a row of the original
table (the stamp never produces a PENDING row). -/
theorem pending_of_stamped (items : List Row) (q idv : String) (now : Int)
    (r : Row) (hr : r ∈ items.map (reserveStamp idv now))
    (hp : pendingIn q r = true) : r ∈ items := by
  obtain ⟨r0, hr0, rfl⟩ := List.mem_map.mp hr
  by_cases h0 : (r0.id == idv) = true
  · exfalso
    simp [reserveStamp, h0, pendingIn] at hp
  · rw [show reserveStamp idv now r0 = r0 by simp [reserveStamp, h0]]
    exact hr0

/-- RESERVED rows persist through any further sequence of reservations. -/
theorem reserveN_reserved_persists (q : String) (now : Int) :
    ∀ (n : Nat) (s : St) (id : String),
      (∃ r ∈ s.items, r.id = id ∧ r.state = .reserved) →
      ∃ r ∈ (reserveN s q now n).snd.items, r.id = id ∧ r.state = .reserved := by
  intro n
  induction n with
  | zero => exact fun s id h => h
  | succ n ih =>
    intro s id h
    rcases hres : reserveInput s q now with ⟨res, s1⟩
    simp only [reserveN, hres]
    cases res with
    | error e =>
      have he := sqliteReserveInput_error_elim s q now _ _ hres
      rw [he.1]
      exact ih s id h
    | ok id2 =>
      obtain ⟨_, hitems⟩ := sqliteReserveInput_ok_elim s q now id2 s1 hres
      apply ih
      obtain ⟨r, hr, hid, hst⟩ := h
      by_cases h2 : (r.id == id2) = true
      · refine ⟨reserveStamp id2 now r, ?_, ?_, ?_⟩
        · rw [hitems]; exact List.mem_map_of_mem _ hr
        · simp only [reserveStamp, h2]
          simp
          exact hid
        · simp only [reserveStamp, h2]
          simp
      · refine ⟨r, ?_, hid, hst⟩
        rw [hitems]
        have : reserveStamp id2 now r = r := by simp [reserveStamp, h2]
        rw [← this]
        exact List.mem_map_of_mem _ hr

end Sqlite

namespace Sqlite

open WorkQ

/-- Unfolding of the reservation filter. -/
theorem pendingIn_iff (q : String) (r : Row) :
    pendingIn q r = true ↔ (r.queue_name = q ∧ r.state = .pending) := by
  simp [pendingIn]

/-- One unfolding of `reserveN`. -/
theorem sqliteReserveN_succ (s : St) (q : String) (now : Int) (n : Nat) :
    reserveN s q now (n + 1) =
      ((reserveInput s q now).fst ::
        (reserveN (reserveInput s q now).snd q now n).fst,
       (reserveN (reserveInput s q now).snd q now n).snd) := rfl

/-- FIFO over one queue: when the PENDING rows of queue `q` are `L` in table
order with duplicate-free ids and strictly ascending `created_at`,
`|L| + 1` reservations return exactly the ids of `L` in order followed by
`EmptyQueue`. -/
theorem reserveN_fifo (q : String) (now : Int) :
    ∀ (L : List Row) (s : St),
      s.items.filter (pendingIn q) = L →
      (L.map (·.id)).Nodup →
      L.Pairwise (fun a b => a.created_at < b.created_at) →
      (reserveN s q now (L.length + 1)).fst =
        L.map (fun r => .ok r.id) ++ [.error .emptyQueue] := by
  intro L
  induction L with
  | nil =>
    intro s hf _ _
    have hop : oldestPending s.items q = none := by
      unfold oldestPending
      rw [hf]
      rfl
    simp [reserveN, reserveInput, hop]
  | cons w rest ih =>
    intro s hf hnd hpw
    have hs : ∀ x ∈ rest, w.created_at < x.created_at := by
      intro x hx
      exact (List.pairwise_cons.mp hpw).1 x hx
    have hop : oldestPending s.items q = some w :=
      oldestPending_eq_head s.items q w rest hf hs
    rw [List.map_cons] at hnd
    have hcons := List.nodup_cons.mp hnd
    have hwid : w.id ∉ rest.map (·.id) := hcons.1
    have hf1 : (s.items.map (reserveStamp w.id now)).filter (pendingIn q) =
        rest := by
      rw [filter_map_reserveStamp, hf]
      simp only [List.filter_cons]
      have hww : (w.id != w.id) = false := by simp
      rw [hww]
      simp only [Bool.false_eq_true, if_false]
      rw [List.filter_eq_self]
      intro r hr
      have : r.id ≠ w.id := by
        intro hcon
        exact hwid (hcon ▸ List.mem_map_of_mem (·.id) hr)
      simpa [bne] using this
    have hnd1 : (rest.map (·.id)).Nodup := hcons.2
    have hpw1 : rest.Pairwise (fun a b => a.created_at < b.created_at) :=
      (List.pairwise_cons.mp hpw).2
    have h1 := ih { s with items := s.items.map (reserveStamp w.id now) }
      hf1 hnd1 hpw1
    have step : reserveInput s q now =
        (.ok w.id, { s with items := s.items.map (reserveStamp w.id now) }) := by
      unfold reserveInput
      rw [hop]
    rw [show (w :: rest).length = rest.length + 1 from by simp]
    rw [sqliteReserveN_succ, step]
    dsimp only
    rw [h1]
    simp

/-- Linearized concurrent reservations (embedded-SQL): any number of
successive `reserve_input` calls return duplicate-free ids, each of which was
a PENDING row of the queue in the initial table and is RESERVED in the final
table. -/
theorem reserveN_nodup_spec (q : String) (now : Int) :
    ∀ (n : Nat) (s : St),
      (oksOf (reserveN s q now n).fst).Nodup ∧
      (∀ id ∈ oksOf (reserveN s q now n).fst,
        ∃ r ∈ s.items, r.id = id ∧ pendingIn q r = true) ∧
      (∀ id ∈ oksOf (reserveN s q now n).fst,
        ∃ r ∈ (reserveN s q now n).snd.items,
          r.id = id ∧ r.state = .reserved) := by
  intro n
  induction n with
  | zero =>
    intro s
    refine ⟨by simp [reserveN, oksOf], ?_, ?_⟩ <;>
      · intro id hid
        simp [reserveN, oksOf] at hid
  | succ n ih =>
    intro s
    rcases hres : reserveInput s q now with ⟨res, s1⟩
    rcases hrec : reserveN s1 q now n with ⟨rs, s2⟩
    have ih1 := ih s1
    rw [hrec] at ih1
    cases res with
    | error e =>
      have he := sqliteReserveInput_error_elim s q now _ _ hres
      simp only [reserveN, hres, hrec]
      have hoks : oksOf (Except.error (ε := PyErr) (α := String) e :: rs) =
          oksOf rs := by simp [oksOf]
      refine ⟨by rw [hoks]; exact ih1.1, ?_, ?_⟩
      · intro id hid
        rw [hoks] at hid
        obtain ⟨r, hr, h1, h2⟩ := ih1.2.1 id hid
        rw [he.1] at hr
        exact ⟨r, hr, h1, h2⟩
      · intro id hid
        rw [hoks] at hid
        exact ih1.2.2 id hid
    | ok id =>
      obtain ⟨⟨w, hw, hwid, hwp⟩, hitems⟩ :=
        sqliteReserveInput_ok_elim s q now id s1 hres
      simp only [reserveN, hres, hrec]
      have hoks : oksOf (Except.ok (ε := PyErr) id :: rs) = id :: oksOf rs := by
        simp [oksOf]
      refine ⟨?_, ?_, ?_⟩
      · rw [hoks]
        refine List.nodup_cons.mpr ⟨?_, ih1.1⟩
        intro hmem
        obtain ⟨r, hr, hrid, hrp⟩ := ih1.2.1 id hmem
        have hres2 : r.state = .reserved :=
          stamped_id_reserved s.items id now r (by rw [← hitems]; exact hr)
            hrid
        have hpend : r.state = .pending := ((pendingIn_iff q r).mp hrp).2
        rw [hpend] at hres2
        cases hres2
      · intro id2 hid2
        rw [hoks] at hid2
        rcases List.mem_cons.mp hid2 with h2 | h2
        · exact ⟨w, hw, by rw [hwid, h2], hwp⟩
        · obtain ⟨r, hr, h1a, h1b⟩ := ih1.2.1 id2 h2
          refine ⟨r, ?_, h1a, h1b⟩
          exact pending_of_stamped s.items q id now r
            (by rw [← hitems]; exact hr) h1b
      · intro id2 hid2
        rw [hoks] at hid2
        rcases List.mem_cons.mp hid2 with h2 | h2
        · subst h2
          have hpers := reserveN_reserved_persists q now n s1 id2 ?_
          · rw [hrec] at hpers
            exact hpers
          · refine ⟨reserveStamp id2 now w, ?_, ?_, ?_⟩
            · rw [hitems]
              exact List.mem_map_of_mem _ hw
            · simp only [reserveStamp]
              rw [if_pos (by simp [hwid])]
              exact hwid
            · simp only [reserveStamp]
              rw [if_pos (by simp [hwid])]
        · exact ih1.2.2 id2 h2

end Sqlite

namespace Redis

open WorkQ

/-- One unfolding of the KV `reserveN`. -/
theorem redisReserveN_succ (s : St) (q : String) (now : Int) (n : Nat) :
    reserveN s q now (n + 1) =
      ((reserveInput s q now).fst ::
        (reserveN (reserveInput s q now).snd q now n).fst,
       (reserveN (reserveInput s q now).snd q now n).snd) := rfl

/-- A failed KV reservation means the pending list was empty, and nothing
changed. -/
theorem redisReserveInput_error_elim (s : St) (q : String) (now : Int)
    (e : PyErr) (s' : St) (h : reserveInput s q now = (.error e, s')) :
    (s.pending q).getLast? = none ∧ s' = s ∧ e = .emptyQueue := by
  unfold reserveInput at h
  cases hg : (s.pending q).getLast? with
  | none =>
    rw [hg] at h
    injection h with h1 h2
    injection h1 with h1
    exact ⟨rfl, h2.symm, h1.symm⟩
  | some x =>
    rw [hg] at h
    injection h with h1 h2
    cases h1

/-- A successful KV reservation pops the tail of the pending list, pushes the
id onto the processing list and marks the payload state RESERVED. -/
theorem redisReserveInput_ok_elim (s : St) (q : String) (now : Int)
    (id : String) (s' : St) (h : reserveInput s q now = (.ok id, s')) :
    (s.pending q).getLast? = some id ∧
    s'.pending q = (s.pending q).dropLast ∧
    s'.processing q = id :: s.processing q ∧
    ((s'.payloadHash q id).bind (·.state)) = some "RESERVED" := by
  unfold reserveInput at h
  cases hg : (s.pending q).getLast? with
  | none =>
    rw [hg] at h
    injection h with h1 h2
    cases h1
  | some x =>
    rw [hg] at h
    injection h with h1 h2
    injection h1 with h1
    subst h1
    refine ⟨rfl, ?_, ?_, ?_⟩
    · rw [← h2]
      simp [upd1]
    · rw [← h2]
      simp [upd1]
    · rw [← h2]
      simp only [upd2]
      split <;> rename_i hc
      · cases hph : s.payloadHash q x <;> simp [hsetState]
      · exact absurd (by simp) hc

/-- Closed form of the results of `n` successive KV reservations: the tail of
the pending list in reverse (FIFO) order, padded with `EmptyQueue` errors. -/
theorem reserveN_fst_eq (q : String) (now : Int) :
    ∀ (n : Nat) (s : St),
      (reserveN s q now n).fst =
        ((s.pending q).reverse.take n).map .ok ++
          List.replicate (n - (s.pending q).length) (.error .emptyQueue) := by
  intro n
  induction n with
  | zero => intro s; simp [reserveN]
  | succ n ih =>
    intro s
    rcases hstep : reserveInput s q now with ⟨res, s1⟩
    cases res with
    | error e =>
      obtain ⟨hg, he, he2⟩ := redisReserveInput_error_elim s q now _ _ hstep
      subst he2
      have hL : s.pending q = [] := by
        cases hc : s.pending q with
        | nil => rfl
        | cons x xs =>
          rw [hc, List.getLast?_eq_getLast_of_ne_nil (by simp)] at hg
          cases hg
      rw [redisReserveN_succ, hstep]
      dsimp only
      rw [he, ih s]
      simp [hL, List.replicate_succ]
    | ok id =>
      obtain ⟨hg, hp1, _, _⟩ := redisReserveInput_ok_elim s q now id s1 hstep
      have hne : s.pending q ≠ [] := by
        intro hc
        rw [hc] at hg
        cases hg
      have hid : (s.pending q).getLast hne = id := by
        have h3 := List.getLast?_eq_getLast_of_ne_nil hne
        rw [hg] at h3
        exact (Option.some.inj h3).symm
      have hrev : (s.pending q).reverse =
          id :: (s.pending q).dropLast.reverse := by
        conv_lhs => rw [← List.dropLast_append_getLast hne]
        rw [List.reverse_append, hid]
        rfl
      have hlen : (s.pending q).length =
          (s.pending q).dropLast.length + 1 := by
        conv_lhs => rw [← List.dropLast_append_getLast hne]
        simp
      rw [redisReserveN_succ, hstep]
      dsimp only
      rw [ih s1, hp1, hrev, hlen]
      simp [List.take_succ_cons, Nat.succ_sub_succ]

/-- Ids already in the processing list stay there through further
reservations. -/
theorem reserveN_processing_mono (q : String) (now : Int) :
    ∀ (n : Nat) (s : St) (id : String),
      id ∈ s.processing q →
      id ∈ (reserveN s q now n).snd.processing q := by
  intro n
  induction n with
  | zero => exact fun s id h => h
  | succ n ih =>
    intro s id h
    rcases hstep : reserveInput s q now with ⟨res, s1⟩
    rw [redisReserveN_succ, hstep]
    dsimp only
    cases res with
    | error e =>
      obtain ⟨_, he, _⟩ := redisReserveInput_error_elim s q now _ _ hstep
      rw [he]
      exact ih s id h
    | ok id2 =>
      obtain ⟨_, _, hproc, _⟩ := redisReserveInput_ok_elim s q now id2 s1 hstep
      apply ih
      rw [hproc]
      exact List.mem_cons_of_mem _ h

end Redis

namespace Redis

open WorkQ

/-- Seeding pushes the new id at the head of the queue's pending list. -/
theorem seedInput_pending (s : St) (q id : String) (p : Option Json)
    (now : Int) :
    (seedInput s q id "" p now).snd.pending q = id :: s.pending q := by
  simp [seedInput, upd1]

/-- Seeding a batch in order leaves the batch reversed at the head of the
pending list (so tail pops return it in seed order). -/
theorem seedAll_pending (q : String) (now : Int) :
    ∀ (ids : List String) (s : St),
      (seedAll s q now ids).pending q = ids.reverse ++ s.pending q := by
  intro ids
  induction ids with
  | nil => intro s; rfl
  | cons id rest ih =>
    intro s
    show (seedAll (seedInput s q id "" none now).snd q now rest).pending q = _
    rw [ih, seedInput_pending]
    simp

/-- `create_output` never touches the input queue's pending list (it pushes
onto `{q}_output:pending` only). -/
theorem createOutput_pending_q (s : St) (q id pid : String)
    (p : Option Json) (now : Int) :
    (createOutput s q id pid p now).snd.pending q = s.pending q := by
  have hne : q ≠ q ++ "_output" := queue_ne_output q
  by_cases hp : pid = "" <;> simp [createOutput, upd1, hne, hp]

/-- The ok-projection of a block of successes followed by failures. -/
theorem oksOf_map_ok_append_errors (l : List String) (k : Nat) :
    oksOf (l.map .ok ++ List.replicate k (.error .emptyQueue)) = l := by
  induction l with
  | nil =>
    induction k with
    | zero => rfl
    | succ k ihk => simpa [oksOf, List.replicate_succ] using ihk
  | cons x xs ih => simpa [oksOf] using ih

/-- Every id returned by a KV reservation run is on the processing list of
the final state. -/
theorem reserveN_oks_processing (q : String) (now : Int) :
    ∀ (n : Nat) (s : St),
      ∀ id ∈ oksOf (reserveN s q now n).fst,
        id ∈ (reserveN s q now n).snd.processing q := by
  intro n
  induction n with
  | zero =>
    intro s id hid
    simp [reserveN, oksOf] at hid
  | succ n ih =>
    intro s id hid
    rcases hstep : reserveInput s q now with ⟨res, s1⟩
    rw [redisReserveN_succ, hstep] at hid ⊢
    dsimp only at hid ⊢
    cases res with
    | error e =>
      obtain ⟨_, he, _⟩ := redisReserveInput_error_elim s q now _ _ hstep
      rw [he] at hid ⊢
      have : oksOf (Except.error (ε := PyErr) (α := String) e ::
          (reserveN s q now n).fst) = oksOf (reserveN s q now n).fst := by
        simp [oksOf]
      rw [this] at hid
      exact ih s id hid
    | ok id2 =>
      obtain ⟨_, _, hproc, _⟩ := redisReserveInput_ok_elim s q now id2 s1 hstep
      have : oksOf (Except.ok (ε := PyErr) id2 ::
          (reserveN s1 q now n).fst) =
          id2 :: oksOf (reserveN s1 q now n).fst := by
        simp [oksOf]
      rw [this] at hid
      rcases List.mem_cons.mp hid with h2 | h2
      · subst h2
        exact reserveN_processing_mono q now n s1 id
          (by rw [hproc]; exact List.mem_cons_self _ _)
      · exact ih s1 id h2

end Redis

namespace Claims

open WorkQ

/-- C1: FIFO reservation holds for the embedded-SQL backend (pending rows
with duplicate-free ids and strictly ascending `created_at` are returned in
creation order and then `EmptyQueue`) and for the KV backend (a seeded batch
is returned in seed order and then `EmptyQueue`).  The DocumentDB backend,
however, can never reserve anything: its `reserve_input` references the
unbound name `pymongo` (only names *from* `pymongo` are imported), so every
call raises `NameError` — even on a queue whose collection holds a PENDING
document the would-be query selects. -/
theorem c1_reserve_fifo_and_docdb_reserve_broken :
    (∀ (s : Sqlite.St) (q : String) (now : Int) (L : List Sqlite.Row),
        s.items.filter (Sqlite.pendingIn q) = L →
        (L.map (·.id)).Nodup →
        L.Pairwise (fun a b => a.created_at < b.created_at) →
        (Sqlite.reserveN s q now (L.length + 1)).fst =
          L.map (fun r => .ok r.id) ++ [.error .emptyQueue]) ∧
    (∀ (s : Redis.St) (q : String) (now : Int) (ids : List String),
        s.pending q = [] →
        (Redis.reserveN (Redis.seedAll s q now ids) q now
            (ids.length + 1)).fst =
          ids.map .ok ++ [.error .emptyQueue]) ∧
    (∀ (s : Docdb.St) (q : String) (now : Int),
        (Docdb.reserveInput s q now).fst = .error .nameError) ∧
    ((Docdb.oldestPendingDoc
        ((Docdb.createOutput Docdb.emptySt "q" "o1" "p" none 0).snd.docs
          ("q" ++ "_output")) ("q" ++ "_output")).isSome = true ∧
      (Docdb.reserveInput
        (Docdb.createOutput Docdb.emptySt "q" "o1" "p" none 0).snd
        ("q" ++ "_output") 5).fst = .error .nameError) := by
  refine ⟨?_, ?_, fun s q now => rfl, rfl, rfl⟩
  · exact fun s q now L hf hnd hpw => Sqlite.reserveN_fifo q now L s hf hnd hpw
  · intro s q now ids hemp
    rw [Redis.reserveN_fst_eq, Redis.seedAll_pending, hemp]
    have h1 : ids.length + 1 - (ids.reverse ++ ([] : List String)).length = 1 := by
      simp
    rw [h1]
    have h2 : ((ids.reverse ++ ([] : List String)).reverse.take
        (ids.length + 1)) = ids := by
      simp
    rw [h2]
    rfl

end Claims

namespace Claims

open WorkQ

/-- C1 witness: two items seeded in order on each backend come back in seed
order followed by `EmptyQueue`. -/
theorem c1_reserve_fifo_and_docdb_reserve_broken_spot :
    (Sqlite.reserveN (Sqlite.seedMany Sqlite.emptySt "q" [("a", 0), ("b", 1)])
        "q" 5
        (((Sqlite.seedMany Sqlite.emptySt "q"
            [("a", 0), ("b", 1)]).items.filter
          (Sqlite.pendingIn "q")).length + 1)).fst =
      ((Sqlite.seedMany Sqlite.emptySt "q" [("a", 0), ("b", 1)]).items.filter
        (Sqlite.pendingIn "q")).map (fun r => .ok r.id) ++
        [.error .emptyQueue] ∧
    (Redis.reserveN (Redis.seedAll Redis.emptySt "q" 0 ["a", "b"]) "q" 0
        3).fst = ["a", "b"].map .ok ++ [.error .emptyQueue] := by
  constructor
  · exact c1_reserve_fifo_and_docdb_reserve_broken.1 _ "q" 5 _ rfl
      (by decide) (by decide)
  · exact c1_reserve_fifo_and_docdb_reserve_broken.2.1 Redis.emptySt "q" 0
      ["a", "b"] rfl

end Claims

namespace Sqlite

open WorkQ

/-- A row of the table after `create_output` is an old row or the new output
row (whose queue is the derived output queue). -/
theorem createOutput_mem_elim (s : St) (q id : String) (pid : Option String)
    (payload : Option Json) (now : Int) (r : Row)
    (hr : r ∈ (createOutput s q id pid payload now).snd.items) :
    r ∈ s.items ∨ (r.id = id ∧ r.queue_name = q ++ "_output") := by
  simp only [createOutput] at hr
  rcases List.mem_append.mp hr with h | h
  · exact .inl h
  · right
    have : r = _ := List.mem_singleton.mp h
    subst this
    exact ⟨rfl, rfl⟩

/-- `create_output` adds no PENDING row to the input queue. -/
theorem createOutput_filter_pending (s : St) (q id : String)
    (pid : Option String) (payload : Option Json) (now : Int)
    (hemp : s.items.filter (pendingIn q) = []) :
    ((createOutput s q id pid payload now).snd.items).filter (pendingIn q) =
      [] := by
  have hne : ((q ++ "_output") == q) = false :=
    beq_eq_false_iff_ne.mpr (Ne.symm (queue_ne_output q))
  simp only [createOutput, List.filter_append, hemp]
  simp [pendingIn, hne]

end Sqlite

namespace Claims

open WorkQ

/-- C2: interleaved (linearized) `reserve_input` calls never hand out the
same id twice.  Embedded-SQL: any run of reservations returns duplicate-free
ids, each the id of a row that was PENDING in the queue initially and is
RESERVED in the final table.  KV: with a duplicate-free pending list the
returned ids are duplicate-free, drawn from the initial pending list, and on
the processing list afterwards; a single successful call atomically moves
the id from pending to processing and marks the payload RESERVED. -/
theorem c2_concurrent_reservation_no_duplicates :
    (∀ (q : String) (now : Int) (n : Nat) (s : Sqlite.St),
        (oksOf (Sqlite.reserveN s q now n).fst).Nodup ∧
        (∀ id ∈ oksOf (Sqlite.reserveN s q now n).fst,
          ∃ r ∈ s.items, r.id = id ∧ Sqlite.pendingIn q r = true) ∧
        (∀ id ∈ oksOf (Sqlite.reserveN s q now n).fst,
          ∃ r ∈ (Sqlite.reserveN s q now n).snd.items,
            r.id = id ∧ r.state = .reserved)) ∧
    (∀ (q : String) (now : Int) (n : Nat) (s : Redis.St),
        (s.pending q).Nodup →
        (oksOf (Redis.reserveN s q now n).fst).Nodup ∧
        (∀ id ∈ oksOf (Redis.reserveN s q now n).fst, id ∈ s.pending q) ∧
        (∀ id ∈ oksOf (Redis.reserveN s q now n).fst,
          id ∈ (Redis.reserveN s q now n).snd.processing q)) ∧
    (∀ (s : Redis.St) (q : String) (now : Int) (id : String) (s' : Redis.St),
        Redis.reserveInput s q now = (.ok id, s') →
        id ∈ s.pending q ∧ s'.processing q = id :: s.processing q ∧
        ((s'.payloadHash q id).bind (·.state)) = some "RESERVED") := by
  refine ⟨?_, ?_, ?_⟩
  · exact fun q now n s => Sqlite.reserveN_nodup_spec q now n s
  · intro q now n s hnodup
    have hoks : oksOf (Redis.reserveN s q now n).fst =
        (s.pending q).reverse.take n := by
      rw [Redis.reserveN_fst_eq, Redis.oksOf_map_ok_append_errors]
    refine ⟨?_, ?_, ?_⟩
    · rw [hoks]
      exact (List.take_sublist _ _).nodup (List.nodup_reverse.mpr hnodup)
    · intro id hid
      rw [hoks] at hid
      exact List.mem_reverse.mp (List.take_subset _ _ hid)
    · exact fun id hid => Redis.reserveN_oks_processing q now n s id hid
  · intro s q now id s' h
    obtain ⟨hg, _, hproc, hstate⟩ := Redis.redisReserveInput_ok_elim s q now id s' h
    exact ⟨List.mem_of_mem_getLast? hg, hproc, hstate⟩

/-- C2 witness: two seeded items on the KV backend — two reservations return
distinct ids from the seeded pending list. -/
theorem c2_concurrent_reservation_no_duplicates_spot :
    (oksOf (Redis.reserveN
        (Redis.seedAll Redis.emptySt "q" 0 ["a", "b"]) "q" 0 2).fst).Nodup ∧
    (∀ id ∈ oksOf (Redis.reserveN
        (Redis.seedAll Redis.emptySt "q" 0 ["a", "b"]) "q" 0 2).fst,
      id ∈ (Redis.seedAll Redis.emptySt "q" 0 ["a", "b"]).pending "q") := by
  have h := c2_concurrent_reservation_no_duplicates.2.1 "q" 0 2
    (Redis.seedAll Redis.emptySt "q" 0 ["a", "b"]) (by decide)
  exact ⟨h.1, h.2.1⟩

/-- C4: an output created by `create_output` lands on the derived output
queue and is never handed out by `reserve_input` on the input queue; on an
otherwise empty input queue, `reserve_input` right after `create_output`
raises `EmptyQueue` (embedded-SQL and KV backends). -/
theorem c4_output_queue_isolation :
    (∀ (s : Sqlite.St) (q newId : String) (pid : Option String)
        (payload : Option Json) (now now2 : Int) (n : Nat),
        (∀ r ∈ s.items, r.id ≠ newId) →
        newId ∉ oksOf (Sqlite.reserveN
          (Sqlite.createOutput s q newId pid payload now).snd q now2 n).fst) ∧
    (∀ (s : Sqlite.St) (q newId : String) (pid : Option String)
        (payload : Option Json) (now now2 : Int),
        s.items.filter (Sqlite.pendingIn q) = [] →
        (Sqlite.reserveInput
          (Sqlite.createOutput s q newId pid payload now).snd q now2).fst =
          .error .emptyQueue) ∧
    (∀ (s : Redis.St) (q newId pid : String) (payload : Option Json)
        (now now2 : Int) (n : Nat),
        newId ∉ s.pending q →
        newId ∉ oksOf (Redis.reserveN
          (Redis.createOutput s q newId pid payload now).snd q now2 n).fst) ∧
    (∀ (s : Redis.St) (q newId pid : String) (payload : Option Json)
        (now now2 : Int),
        s.pending q = [] →
        (Redis.reserveInput
          (Redis.createOutput s q newId pid payload now).snd q now2).fst =
          .error .emptyQueue) := by
  refine ⟨?_, ?_, ?_, ?_⟩
  · intro s q newId pid payload now now2 n hfresh hmem
    obtain ⟨r, hr, hid, hp⟩ :=
      (Sqlite.reserveN_nodup_spec q now2 n
        (Sqlite.createOutput s q newId pid payload now).snd).2.1 newId hmem
    rcases Sqlite.createOutput_mem_elim s q newId pid payload now r hr with
      h | h
    · exact hfresh r h hid
    · exact queue_ne_output q
        (((Sqlite.pendingIn_iff q r).mp hp).1 ▸ h.2)
  · intro s q newId pid payload now now2 hemp
    have hf := Sqlite.createOutput_filter_pending s q newId pid payload now
      hemp
    have hop : Sqlite.oldestPending
        (Sqlite.createOutput s q newId pid payload now).snd.items q = none := by
      unfold Sqlite.oldestPending
      rw [hf]
      rfl
    unfold Sqlite.reserveInput
    rw [hop]
  · intro s q newId pid payload now now2 n hfresh hmem
    rw [Redis.reserveN_fst_eq, Redis.createOutput_pending_q,
      Redis.oksOf_map_ok_append_errors] at hmem
    exact hfresh (List.mem_reverse.mp (List.take_subset _ _ hmem))
  · intro s q newId pid payload now now2 hemp
    unfold Redis.reserveInput
    rw [Redis.createOutput_pending_q, hemp]
    rfl

/-- C4 witness: creating an output on an empty store, the next input
reservation raises `EmptyQueue` on both backends. -/
theorem c4_output_queue_isolation_spot :
    (Sqlite.reserveInput
        (Sqlite.createOutput Sqlite.emptySt "q" "o1" none none 0).snd
        "q" 1).fst = .error .emptyQueue ∧
    (Redis.reserveInput
        (Redis.createOutput Redis.emptySt "q" "o1" "p" none 0).snd
        "q" 1).fst = .error .emptyQueue := by
  constructor
  · exact c4_output_queue_isolation.2.1 Sqlite.emptySt "q" "o1" none none 0 1
      rfl
  · exact c4_output_queue_isolation.2.2.2 Redis.emptySt "q" "o1" "p" none 0 1
      rfl

end Claims

namespace Redis

open WorkQ

/-- Specification of the KV orphan-recovery loop over a duplicate-free
snapshot of the processing list: the returned ids are exactly the snapshot
items whose initial `reserved_at` is older than the cutoff (read live, but
earlier iterations only touch already-returned ids); each returned id ends
with `reserved_at` deleted and payload-hash state PENDING; every other
(queue, id) hash pair is untouched; the returned ids are `LPUSH`ed onto the
pending list and `LREM`ed from the processing list; no other queue's lists
and no other key family change. -/
theorem redisRecoverLoop_spec (q : String) (cutoff : Int) :
    ∀ (todo : List String), todo.Nodup → ∀ (s : St),
      (recoverLoop q cutoff todo s).fst = todo.filter (fun id =>
        match (s.timesHash q id).reserved_at with
        | some r => decide (r < cutoff)
        | none => false) ∧
      (∀ id ∈ (recoverLoop q cutoff todo s).fst,
        ((recoverLoop q cutoff todo s).snd.timesHash q id).reserved_at =
            none ∧
          (((recoverLoop q cutoff todo s).snd.payloadHash q id).bind
            (·.state)) = some "PENDING") ∧
      (∀ qn id2, ¬(qn = q ∧ id2 ∈ (recoverLoop q cutoff todo s).fst) →
        (recoverLoop q cutoff todo s).snd.timesHash qn id2 =
            s.timesHash qn id2 ∧
          (recoverLoop q cutoff todo s).snd.payloadHash qn id2 =
            s.payloadHash qn id2) ∧
      (recoverLoop q cutoff todo s).snd.pending q =
        (recoverLoop q cutoff todo s).fst.reverse ++ s.pending q ∧
      (∀ q2, q2 ≠ q → (recoverLoop q cutoff todo s).snd.pending q2 =
        s.pending q2) ∧
      (recoverLoop q cutoff todo s).snd.processing q =
        (s.processing q).filter
          (fun x => decide (x ∉ (recoverLoop q cutoff todo s).fst)) ∧
      (∀ q2, q2 ≠ q → (recoverLoop q cutoff todo s).snd.processing q2 =
        s.processing q2) ∧
      ((recoverLoop q cutoff todo s).snd.doneSet,
        (recoverLoop q cutoff todo s).snd.failedSet,
        (recoverLoop q cutoff todo s).snd.filesHash,
        (recoverLoop q cutoff todo s).snd.excHash,
        (recoverLoop q cutoff todo s).snd.stateKey,
        (recoverLoop q cutoff todo s).snd.parentKey,
        (recoverLoop q cutoff todo s).snd.originQueue,
        (recoverLoop q cutoff todo s).snd.fs) =
      (s.doneSet, s.failedSet, s.filesHash, s.excHash, s.stateKey,
        s.parentKey, s.originQueue, s.fs) := by
  intro todo
  induction todo with
  | nil =>
    intro _ s
    refine ⟨rfl, ?_, ?_, rfl, fun _ _ => rfl, ?_, fun _ _ => rfl, rfl⟩
    · intro id hid
      cases hid
    · intro qn id2 _
      exact ⟨rfl, rfl⟩
    · symm
      apply List.filter_eq_self.mpr
      intro y _
      simp [recoverLoop]
  | cons id rest ih =>
    intro hnd s
    have hndr : rest.Nodup := hnd.of_cons
    have hid : id ∉ rest := (List.nodup_cons.mp hnd).1
    rcases hts : (s.timesHash q id).reserved_at with _ | r
    · have hstep : recoverLoop q cutoff (id :: rest) s =
          recoverLoop q cutoff rest s := by
        rw [redisRecoverLoop_cons, hts]
      rw [hstep]
      obtain ⟨A, B, C, D, E, F, G, H⟩ := ih hndr s
      refine ⟨?_, B, C, D, E, F, G, H⟩
      rw [A, List.filter_cons]
      simp [hts]
    · by_cases hlt : r < cutoff
      · have hstep : recoverLoop q cutoff (id :: rest) s =
            (id :: (recoverLoop q cutoff rest (recoverOne s q id)).fst,
              (recoverLoop q cutoff rest (recoverOne s q id)).snd) := by
          rw [redisRecoverLoop_cons, hts]
          exact if_pos hlt
        rw [hstep]
        obtain ⟨A, B, C, D, E, F, G, H⟩ := ih hndr (recoverOne s q id)
        have hRt : ∀ qn id2, ¬(qn = q ∧ id2 = id) →
            (recoverOne s q id).timesHash qn id2 = s.timesHash qn id2 := by
          intro qn id2 hne
          simp [recoverOne, upd2, hne]
        have hRp : ∀ qn id2, ¬(qn = q ∧ id2 = id) →
            (recoverOne s q id).payloadHash qn id2 =
              s.payloadHash qn id2 := by
          intro qn id2 hne
          simp [recoverOne, upd2, hne]
        have hfst : (recoverLoop q cutoff rest (recoverOne s q id)).fst =
            rest.filter (fun id2 =>
              match (s.timesHash q id2).reserved_at with
              | some r2 => decide (r2 < cutoff)
              | none => false) := by
          rw [A]
          apply List.filter_congr
          intro x hx
          have hxid : ¬(q = q ∧ x = id) := fun hc => hid (hc.2 ▸ hx)
          rw [hRt q x hxid]
        have hidnot :
            id ∉ (recoverLoop q cutoff rest (recoverOne s q id)).fst := by
          rw [hfst]
          intro hc
          exact hid (List.mem_of_mem_filter hc)
        refine ⟨?_, ?_, ?_, ?_, ?_, ?_, ?_, ?_⟩
        · dsimp only
          rw [hfst, List.filter_cons]
          simp [hts, hlt]
        · intro x hx
          dsimp only at hx ⊢
          rcases List.mem_cons.mp hx with h1 | h1
          · rw [h1]
            obtain ⟨ht2, hp2⟩ := C q id (fun hc => hidnot hc.2)
            constructor
            · rw [ht2]
              simp [recoverOne, upd2]
            · rw [hp2]
              have hro : (recoverOne s q id).payloadHash q id =
                  hsetState (s.payloadHash q id) "PENDING" := by
                simp [recoverOne, upd2]
              rw [hro, hsetState_state]
          · exact B x h1
        · intro qn id2 hn
          dsimp only at hn ⊢
          have hn1 : ¬(qn = q ∧
              id2 ∈ (recoverLoop q cutoff rest (recoverOne s q id)).fst) :=
            fun hc => hn ⟨hc.1, List.mem_cons_of_mem id hc.2⟩
          have hn2 : ¬(qn = q ∧ id2 = id) :=
            fun hc => hn ⟨hc.1, hc.2 ▸ List.mem_cons_self id _⟩
          obtain ⟨ht2, hp2⟩ := C qn id2 hn1
          constructor
          · rw [ht2]
            exact hRt qn id2 hn2
          · rw [hp2]
            exact hRp qn id2 hn2
        · dsimp only
          rw [D]
          have hp1 : (recoverOne s q id).pending q =
              id :: s.pending q := by
            simp [recoverOne, upd1]
          rw [hp1, List.reverse_cons, List.append_assoc]
          rfl
        · intro q2 hq2
          dsimp only
          rw [E q2 hq2]
          simp [recoverOne, upd1, hq2]
        · dsimp only
          rw [F]
          have hpr : (recoverOne s q id).processing q =
              (s.processing q).filter (fun x => x ≠ id) := by
            simp [recoverOne, upd1]
          rw [hpr, List.filter_filter]
          apply List.filter_congr
          intro x hx
          simp [List.mem_cons, not_or, Bool.and_comm]
        · intro q2 hq2
          dsimp only
          rw [G q2 hq2]
          simp [recoverOne, upd1, hq2]
        · dsimp only
          exact H
      · have hstep : recoverLoop q cutoff (id :: rest) s =
            recoverLoop q cutoff rest s := by
          rw [redisRecoverLoop_cons, hts]
          exact if_neg hlt
        rw [hstep]
        obtain ⟨A, B, C, D, E, F, G, H⟩ := ih hndr s
        refine ⟨?_, B, C, D, E, F, G, H⟩
        rw [A, List.filter_cons]
        simp [hts, hlt]

/-- `recover_orphaned_work_items` on the KV backend, specified for any state
whose processing list has no duplicate ids (ids are `uuid4()`-generated):
returns exactly the stale RESERVED ids (in processing order), clears their
`reserved_at`, resets their payload-hash state to PENDING, pushes them back
onto the pending list and removes them from processing, and leaves every
other (queue, id) hash pair untouched. -/
theorem redisRecover_spec (s : St) (q : String) (timeout now : Int)
    (hnd : (s.processing q).Nodup) :
    (recover s q timeout now).fst = .ok ((s.processing q).filter (fun id =>
      match (s.timesHash q id).reserved_at with
      | some r => decide (r < now - timeout)
      | none => false)) ∧
    (∀ id ∈ (s.processing q).filter (fun id =>
        match (s.timesHash q id).reserved_at with
        | some r => decide (r < now - timeout)
        | none => false),
      ((recover s q timeout now).snd.timesHash q id).reserved_at = none ∧
      (((recover s q timeout now).snd.payloadHash q id).bind (·.state)) =
        some "PENDING" ∧
      id ∈ (recover s q timeout now).snd.pending q) ∧
    (∀ qn id2, ¬(qn = q ∧ id2 ∈ (s.processing q).filter (fun id =>
        match (s.timesHash q id).reserved_at with
        | some r => decide (r < now - timeout)
        | none => false)) →
      (recover s q timeout now).snd.timesHash qn id2 = s.timesHash qn id2 ∧
      (recover s q timeout now).snd.payloadHash qn id2 =
        s.payloadHash qn id2) ∧
    ((recover s q timeout now).snd.pending q =
      ((s.processing q).filter (fun id =>
        match (s.timesHash q id).reserved_at with
        | some r => decide (r < now - timeout)
        | none => false)).reverse ++ s.pending q) ∧
    ((recover s q timeout now).snd.processing q =
      (s.processing q).filter (fun x => decide (x ∉ (s.processing q).filter
        (fun id =>
          match (s.timesHash q id).reserved_at with
          | some r => decide (r < now - timeout)
          | none => false)))) := by
  obtain ⟨A, B, C, D, E, F, G, H⟩ :=
    redisRecoverLoop_spec q (now - timeout) (s.processing q) hnd s
  rw [A] at B C D F
  refine ⟨congrArg Except.ok A, ?_, C, D, F⟩
  intro idv hidv
  obtain ⟨h1, h2⟩ := B idv hidv
  refine ⟨h1, h2, ?_⟩
  have h3 : idv ∈ ((s.processing q).filter (fun id =>
      match (s.timesHash q id).reserved_at with
      | some r => decide (r < now - timeout)
      | none => false)).reverse ++ s.pending q :=
    List.mem_append_left _ (List.mem_reverse.mpr hidv)
  rw [← D] at h3
  exact h3

/-- Any id on the pending list is returned by one of the next
`(length of pending)` reservations. -/
theorem redisPending_reservable (s : St) (q : String) (now : Int)
    (id : String) (h : id ∈ s.pending q) :
    Except.ok id ∈ (reserveN s q now ((s.pending q).length)).fst := by
  rw [reserveN_fst_eq]
  refine List.mem_append_left _ ?_
  refine List.mem_map_of_mem _ ?_
  rw [← List.length_reverse, List.take_length]
  exact List.mem_reverse.mpr h

end Redis

namespace Claims

open WorkQ

/-- C9: orphan recovery resets exactly the RESERVED items whose `reserved_at`
is older than `now − timeout` to PENDING, clears their `reserved_at`, leaves
every other item unchanged and returns the recovered ids — proved in general
for the embedded-SQL backend (with duplicate-free row ids) and for the KV
backend (with a duplicate-free processing list), where each recovered id is
moreover returned again by one of the next `reserve_input` calls; on both
backends the literal scenario also holds: one item reserved long ago is
recovered (state PENDING, `reserved_at` null) and the next `reserve_input`
returns the same id. -/
theorem c9_recover_orphans :
    (∀ (s : Sqlite.St) (timeout now : Int),
      (s.items.map (·.id)).Nodup →
      ((Sqlite.recover s timeout now).fst =
        .ok ((s.items.filter (Sqlite.orphaned timeout now)).map (·.id))) ∧
      (∀ r ∈ s.items,
        (Sqlite.orphaned timeout now r = true ↔
          r.id ∈ (s.items.filter (Sqlite.orphaned timeout now)).map (·.id))) ∧
      (∀ r ∈ s.items, Sqlite.orphaned timeout now r = true →
        { r with state := PState.pending, reserved_at := none } ∈
          (Sqlite.recover s timeout now).snd.items) ∧
      (∀ r ∈ s.items, Sqlite.orphaned timeout now r = false →
        r ∈ (Sqlite.recover s timeout now).snd.items)) ∧
    (∀ (s : Redis.St) (q : String) (timeout now : Int),
      (s.processing q).Nodup →
      ((Redis.recover s q timeout now).fst =
        .ok ((s.processing q).filter (fun id =>
          match (s.timesHash q id).reserved_at with
          | some r => decide (r < now - timeout)
          | none => false))) ∧
      (∀ id ∈ (s.processing q).filter (fun id =>
          match (s.timesHash q id).reserved_at with
          | some r => decide (r < now - timeout)
          | none => false),
        ((Redis.recover s q timeout now).snd.timesHash q id).reserved_at =
          none ∧
        (((Redis.recover s q timeout now).snd.payloadHash q id).bind
          (·.state)) = some "PENDING" ∧
        (∀ now2 : Int, Except.ok id ∈
          (Redis.reserveN (Redis.recover s q timeout now).snd q now2
            (((Redis.recover s q timeout now).snd.pending q).length)).fst)) ∧
      (∀ qn id2, ¬(qn = q ∧ id2 ∈ (s.processing q).filter (fun id =>
          match (s.timesHash q id).reserved_at with
          | some r => decide (r < now - timeout)
          | none => false)) →
        (Redis.recover s q timeout now).snd.timesHash qn id2 =
          s.timesHash qn id2 ∧
        (Redis.recover s q timeout now).snd.payloadHash qn id2 =
          s.payloadHash qn id2) ∧
      ((Redis.recover s q timeout now).snd.pending q =
        ((s.processing q).filter (fun id =>
          match (s.timesHash q id).reserved_at with
          | some r => decide (r < now - timeout)
          | none => false)).reverse ++ s.pending q) ∧
      ((Redis.recover s q timeout now).snd.processing q =
        (s.processing q).filter (fun x => decide (x ∉ (s.processing q).filter
          (fun id =>
            match (s.timesHash q id).reserved_at with
            | some r => decide (r < now - timeout)
            | none => false))))) ∧
    ((Sqlite.recover
        (Sqlite.reserveInput
          (Sqlite.seedInput Sqlite.emptySt "q" "i1" none 0).snd "q" 1).snd
        30 32).fst = .ok ["i1"] ∧
      ((Sqlite.recover
          (Sqlite.reserveInput
            (Sqlite.seedInput Sqlite.emptySt "q" "i1" none 0).snd "q" 1).snd
          30 32).snd.items.map fun r => (r.state, r.reserved_at)) =
        [(.pending, none)] ∧
      (Sqlite.reserveInput
        (Sqlite.recover
          (Sqlite.reserveInput
            (Sqlite.seedInput Sqlite.emptySt "q" "i1" none 0).snd "q" 1).snd
          30 32).snd "q" 40).fst = .ok "i1") ∧
    ((Redis.recover
        (Redis.reserveInput
          (Redis.seedInput Redis.emptySt "q" "a" "" none 0).snd "q" 0).snd
        "q" 30 31).fst = .ok ["a"] ∧
      ((Redis.recover
          (Redis.reserveInput
            (Redis.seedInput Redis.emptySt "q" "a" "" none 0).snd "q" 0).snd
          "q" 30 31).snd.timesHash "q" "a").reserved_at = none ∧
      ((Redis.recover
          (Redis.reserveInput
            (Redis.seedInput Redis.emptySt "q" "a" "" none 0).snd "q" 0).snd
          "q" 30 31).snd.payloadHash "q" "a").bind (·.state) =
        some "PENDING" ∧
      (Redis.reserveInput
        (Redis.recover
          (Redis.reserveInput
            (Redis.seedInput Redis.emptySt "q" "a" "" none 0).snd "q" 0).snd
          "q" 30 31).snd "q" 40).fst = .ok "a") := by
  refine ⟨?_, ?_, ⟨?_, ?_, ?_⟩, ⟨?_, ?_, ?_, ?_⟩⟩
  · exact fun s timeout now hids => Sqlite.recover_spec s timeout now hids
  · intro s q timeout now hnd
    obtain ⟨h1, h2, h3, h4, h5⟩ := Redis.redisRecover_spec s q timeout now hnd
    refine ⟨h1, ?_, h3, h4, h5⟩
    intro idv hidv
    obtain ⟨ha, hb, hc⟩ := h2 idv hidv
    exact ⟨ha, hb, fun now2 =>
      Redis.redisPending_reservable _ q now2 idv hc⟩
  all_goals rfl

/-- C9 witness: the general recovery specifications evaluated on concrete
reachable one-item states (whose row ids / processing lists are
duplicate-free). -/
theorem c9_recover_orphans_spot :
    (((Sqlite.reserveInput
        (Sqlite.seedInput Sqlite.emptySt "q" "i1" none 0).snd "q" 1).snd.items.map
      (·.id)).Nodup ∧
    (Sqlite.recover
      (Sqlite.reserveInput
        (Sqlite.seedInput Sqlite.emptySt "q" "i1" none 0).snd "q" 1).snd
      30 32).fst =
      .ok (((Sqlite.reserveInput
          (Sqlite.seedInput Sqlite.emptySt "q" "i1" none 0).snd "q" 1).snd.items.filter
        (Sqlite.orphaned 30 32)).map (·.id))) ∧
    (((Redis.reserveInput
        (Redis.seedInput Redis.emptySt "q" "a" "" none 0).snd "q" 0).snd.processing
          "q").Nodup ∧
    (Redis.recover
      (Redis.reserveInput
        (Redis.seedInput Redis.emptySt "q" "a" "" none 0).snd "q" 0).snd
      "q" 30 31).fst =
      .ok (((Redis.reserveInput
          (Redis.seedInput Redis.emptySt "q" "a" "" none 0).snd
          "q" 0).snd.processing "q").filter (fun id =>
        match ((Redis.reserveInput
            (Redis.seedInput Redis.emptySt "q" "a" "" none 0).snd
            "q" 0).snd.timesHash "q" id).reserved_at with
        | some r => decide (r < 31 - 30)
        | none => false))) := by
  refine ⟨⟨by decide, ?_⟩, ⟨by decide, ?_⟩⟩
  · exact (c9_recover_orphans.1
      (Sqlite.reserveInput
        (Sqlite.seedInput Sqlite.emptySt "q" "i1" none 0).snd "q" 1).snd
      30 32 (by decide)).1
  · exact (c9_recover_orphans.2.1
      (Redis.reserveInput
        (Redis.seedInput Redis.emptySt "q" "a" "" none 0).snd "q" 0).snd
      "q" 30 31 (by decide)).1

end Claims
